import Mathlib

/-!
# mon: restart accounting, PID files and the duration codec

A shallow embedding of `mon.c` and `ms.c`.  C `int` and `int64_t` / `long long`
values are integers; every arithmetic operation of the source is followed by the
wrap-around of its C type (`wrap32`, `wrap64`).  Nullable `const char *` fields are
`Option String`.
-/

namespace Mon

/-! ## Machine integers -/

/-- Two's-complement wrap-around of a C `int` (32 bits). -/
def wrap32 (x : Int) : Int := (x + 2147483648) % 4294967296 - 2147483648

/-- Two's-complement wrap-around of an `int64_t` / `long long` (64 bits). -/
def wrap64 (x : Int) : Int :=
  (x + 9223372036854775808) % 18446744073709551616 - 9223372036854775808

/-- Largest C `int`. -/
def INT_MAX : Int := 2147483647

/-- Smallest C `int`. -/
def INT_MIN : Int := -2147483648

/-- Largest `long long`. -/
def LLONG_MAX : Int := 9223372036854775807

/-- Smallest `long long`. -/
def LLONG_MIN : Int := -9223372036854775808

/-- The value is representable as a C `int`. -/
def isInt32 (x : Int) : Prop := INT_MIN ≤ x ∧ x ≤ INT_MAX

/-- The value is representable as an `int64_t`. -/
def isInt64 (x : Int) : Prop := LLONG_MIN ≤ x ∧ x ≤ LLONG_MAX

/-! ## Monitor (`monitor_t`, mon.c 39-51) -/

/-- The monitor record of mon.c. -/
structure monitor_t where
  pidfile : Option String
  mon_pidfile : Option String
  logfile : Option String
  on_error : Option String
  on_restart : Option String
  last_restart_at : Int
  clock : Int
  daemon : Int
  sleepsec : Int
  max_attempts : Int
  attempts : Int
deriving DecidableEq, Repr

/-- The monitor as `main` initialises it (mon.c 452-463), before option parsing. -/
def monitor_init : monitor_t :=
  { pidfile := none
    mon_pidfile := none
    on_restart := none
    on_error := none
    logfile := some "mon.log"
    daemon := 0
    sleepsec := 1
    max_attempts := 10
    attempts := 0
    last_restart_at := 0
    clock := 60000 }

/-- Embedding of `attempts_exceeded` (mon.c 255-271): the updated monitor and the
returned `int`. -/
def attempts_exceeded (monitor : monitor_t) (ms : Int) : monitor_t × Int :=
  let monitor := { monitor with attempts := wrap32 (monitor.attempts + 1) }
  let monitor := { monitor with clock := wrap64 (monitor.clock - ms) }
  -- reset
  if monitor.clock ≤ 0 then
    ({ monitor with clock := 60000, attempts := 0 }, 0)
  -- all good
  else if monitor.attempts < monitor.max_attempts then (monitor, 0)
  else (monitor, 1)

/-- One restart decision: the monitor before the call of `attempts_exceeded`, the
elapsed milliseconds passed to it, the monitor it leaves and the value it returns. -/
structure Decision where
  before : monitor_t
  ms : Int
  after : monitor_t
  ret : Int
deriving DecidableEq, Repr

/-- The restart decisions `start` makes for a given sequence of elapsed times: `start`
calls `attempts_exceeded` once per pass through its `error:` block (mon.c 330) and
leaves through `exit(2)` as soon as a call returns nonzero, so no decision follows one
that returned nonzero. -/
def decision_log (monitor : monitor_t) : List Int → List Decision
  | [] => []
  | ms :: rest =>
    let r := attempts_exceeded monitor ms
    { before := monitor, ms := ms, after := r.1, ret := r.2 } ::
      (if r.2 = 0 then decision_log r.1 rest else [])

/-! ## C library functions used by the sources

`strtoll`, `atoi` and the `%d` / `%lld` conversions of `printf` are not code of the
repository; they are modelled after the C standard.  A C string is the list of its
characters before the terminating NUL. -/

/-- The C locale `isspace`: space, `\t`, `\n`, `\v`, `\f`, `\r`. -/
def isspace (c : Char) : Bool :=
  c.toNat = 32 || (9 ≤ c.toNat && c.toNat ≤ 13)

/-- The C `isdigit`. -/
def isdigit (c : Char) : Bool := 48 ≤ c.toNat && c.toNat ≤ 57

/-- The character of a decimal digit. -/
def digitChar (d : Nat) : Char := Char.ofNat (48 + d)

/-- Decimal digits of `n`, least significant first; `fuel` bounds their number. -/
def revDigits : Nat → Nat → List Char
  | 0, _ => []
  | fuel + 1, n => digitChar (n % 10) :: (if n / 10 = 0 then [] else revDigits fuel (n / 10))

/-- The decimal numeral of a natural number, as `%u` prints it. -/
def decimal (n : Nat) : List Char := (revDigits (n + 1) n).reverse

/-- The conversions `%d` and `%lld`: the decimal numeral of a signed integer. -/
def lld (v : Int) : List Char :=
  if v < 0 then '-' :: decimal v.natAbs else decimal v.toNat

/-- The digit-reading loop of `strtoll`: the accumulated value and the unread rest. -/
def scan_digits : Nat → List Char → Nat × List Char
  | acc, [] => (acc, [])
  | acc, c :: cs =>
    if isdigit c then scan_digits (acc * 10 + (c.toNat - 48)) cs else (acc, c :: cs)

/-- The start of the subject sequence of `strtoll(str, _, 10)`: leading white space is
skipped and an optional sign is read.  Returns whether the sign is `-`, and what follows
the sign. -/
def scan_sign (str : List Char) : Bool × List Char :=
  let s1 := str.dropWhile isspace
  (s1.head? = some '-',
    if s1.head? = some '-' ∨ s1.head? = some '+' then s1.tail else s1)

/-- The subject sequence of `strtoll(str, _, 10)`: white space, an optional sign and
decimal digits.  Returns the exact value read and the unread rest; without a digit no
conversion is performed, the value is 0 and nothing is consumed. -/
def scan_integer (str : List Char) : Int × List Char :=
  let p := scan_sign str
  match p.2 with
  | [] => (0, str)
  | c :: _ =>
    if isdigit c then
      let r := scan_digits 0 p.2
      (if p.1 then -(r.1 : Int) else (r.1 : Int), r.2)
    else (0, str)

/-- Saturation of `strtoll` at the bounds of `long long`. -/
def clamp64 (x : Int) : Int :=
  if x < LLONG_MIN then LLONG_MIN else if LLONG_MAX < x then LLONG_MAX else x

/-- The C `strtoll(str, NULL, 10)` on a NUL-terminated string. -/
def strtoll (str : List Char) : Int := clamp64 (scan_integer str).1

/-- The C `atoi` applied to a buffer of `buf.length` bytes that carries no terminator of
its own, as `show_status_of` does (mon.c 150-165): `(int) strtol(buf, NULL, 10)`.  The
scan stops at the first byte that cannot continue the number; `none` when it runs past
the end of the buffer. -/
def atoi_buf (buf : List Char) : Option Int :=
  let r := scan_integer buf
  if (scan_sign buf).2 = [] ∨ r.2 = [] then none else some (wrap32 (clamp64 r.1))

/-- The C `snprintf(str, size, ...)`: of the formatted text `out`, at most `size - 1`
characters are stored. -/
def snprintf (size : Nat) (out : List Char) : List Char := out.take (size - 1)

/-! ## Duration codec (ms.c) -/

/-- The macro `MS_SEC` of ms.c: `#define MS_SEC 1000`. -/
def MS_SEC : Int := 1000
/-- The macro `MS_MIN` of ms.c: `#define MS_MIN 60000`. -/
def MS_MIN : Int := 60000
/-- The macro `MS_HOUR` of ms.c: `#define MS_HOUR 3600000`. -/
def MS_HOUR : Int := 3600000
/-- The macro `MS_DAY` of ms.c: `#define MS_DAY 86400000`. -/
def MS_DAY : Int := 86400000
/-- The macro `MS_WEEK` of ms.c: `#define MS_WEEK 604800000`. -/
def MS_WEEK : Int := 604800000
/-- The macro `MS_YEAR` of ms.c: `#define MS_YEAR 31557600000`. -/
def MS_YEAR : Int := 31557600000

/-- The macro `US_SEC` of ms.c: `#define US_SEC 1000000`. -/
def US_SEC : Int := 1000000

/-- A `long long` multiplication. -/
def mul64 (a b : Int) : Int := wrap64 (a * b)

/-- Embedding of `string_to_microseconds` (ms.c 680-694).  The macros `US_MIN`,
`US_HOUR`, `US_DAY`, `US_WEEK`, `US_YEAR` are unparenthesised products, so that
`val * US_HOUR` is `val * 60 * 60 * US_SEC`, multiplied from the left in `long long`;
`US_WEEK` is `7 * US_HOUR` and `US_YEAR` is `52 * US_WEEK` in the source.
`str[len - 1]` and `str[len - 2]` are the last and the last but one character. -/
def string_to_microseconds (str : List Char) : Int :=
  let val := strtoll str
  if val = 0 then -1
  else if str.getLast? = some 's' then
    (if str.dropLast.getLast? = some 'm' then mul64 val 1000 else mul64 val US_SEC)
  else if str.getLast? = some 'm' then mul64 (mul64 val 60) US_SEC
  else if str.getLast? = some 'h' then mul64 (mul64 (mul64 val 60) 60) US_SEC
  else if str.getLast? = some 'd' then
    mul64 (mul64 (mul64 (mul64 val 24) 60) 60) US_SEC
  else if str.getLast? = some 'w' then
    mul64 (mul64 (mul64 (mul64 val 7) 60) 60) US_SEC
  else if str.getLast? = some 'y' then
    mul64 (mul64 (mul64 (mul64 (mul64 val 52) 7) 60) 60) US_SEC
  else val

/-- Embedding of `string_to_milliseconds` (ms.c 701-715). -/
def string_to_milliseconds (str : List Char) : Int :=
  let val := strtoll str
  if val = 0 then -1
  else if str.getLast? = some 's' then
    (if str.dropLast.getLast? = some 'm' then val else mul64 val 1000)
  else if str.getLast? = some 'm' then mul64 val MS_MIN
  else if str.getLast? = some 'h' then mul64 val MS_HOUR
  else if str.getLast? = some 'd' then mul64 val MS_DAY
  else if str.getLast? = some 'w' then mul64 val MS_WEEK
  else if str.getLast? = some 'y' then mul64 val MS_YEAR
  else val

/-- Embedding of `string_to_seconds` (ms.c 721-726); `/` of C truncates. -/
def string_to_seconds (str : List Char) : Int :=
  let ret := string_to_milliseconds str
  if -1 = ret then ret else Int.tdiv ret 1000

/-- Embedding of `milliseconds_to_long_string` (ms.c 757-784), with `long` of 64 bits.
`MS_MAX` is the buffer size defined in `ms.h`, `malloc_ok` tells whether `malloc`
succeeds; the result is `none` for the `NULL` returned when it does not. -/
def milliseconds_to_long_string (MS_MAX : Nat) (malloc_ok : Bool) (ms : Int) :
    Option (List Char) :=
  if malloc_ok = false then none
  else if ms < MS_SEC then some "less than one second".toList
  else
    let nd : List Char × Int :=
      if ms < MS_MIN then ("second".toList, MS_SEC)
      else if ms < MS_HOUR then ("minute".toList, MS_MIN)
      else if ms < MS_DAY then ("hour".toList, MS_HOUR)
      else if ms < MS_WEEK then ("day".toList, MS_DAY)
      else if ms < MS_YEAR then ("week".toList, MS_WEEK)
      else ("year".toList, MS_YEAR)
    let val := Int.tdiv ms nd.2
    if 1 = val then some (snprintf MS_MAX (lld val ++ ' ' :: nd.1))
    else some (snprintf MS_MAX (lld val ++ ' ' :: nd.1 ++ ['s']))

/-! ## Environment of the process

What the operating system answers is given by a `World`: the contents of the regular
files, and for each kind of call the answers to the calls still to come (index 0 is the
next call).  What the process does to its environment is recorded as a list of
`Event`s. -/

/-- An argument of a `printf`-style call; `str none` is a `NULL` passed for `%s`. -/
inductive Arg where
  | int (v : Int)
  | str (s : Option String)
deriving DecidableEq, Repr

/-- Calls by which the process acts on its environment. -/
inductive Event where
  /-- The `log(fmt, args...)` macro of mon.c 57-64, with the log prefix in force: a
  `printf` of `"mon : " fmt "\n"`, or of `"mon : %s : " fmt "\n"` with the prefix. -/
  | log (pfx : Option String) (fmt : String) (args : List Arg)
  | printf (fmt : String) (args : List Arg)
  | perror (s : String)
  | fork (ret : Int)
  | signal_dfl (sig : String)
  | execl_sh (cmd : String)
  | waitpid (pid : Int)
  | sleep (sec : Int)
  | system (cmd : Option String)
  | kill (pid : Int) (sig : Int)
deriving DecidableEq, Repr

/-- The status collected by `waitpid`: `WIFSIGNALED` with `WTERMSIG`, or an exit with
`WEXITSTATUS`. -/
inductive WaitStatus where
  | signaled (sig : Int)
  | exited (code : Int)
deriving DecidableEq, Repr

/-- A child as the supervisor sees it: the value `fork` returns for it and the status
`waitpid` collects. -/
structure Child where
  pid : Int
  status : WaitStatus

/-- The environment of the process. -/
structure World where
  /-- Contents of the regular files by path; `none` when the path does not exist. -/
  fs : String → Option (List Char)
  /-- The `st_mtime` that `stat` reports for a path. -/
  mtime : String → Int
  /-- Whether the coming calls of `open` succeed. -/
  open_ok : Nat → Bool
  /-- Whether the coming calls of `read` deliver the whole file. -/
  read_ok : Nat → Bool
  /-- The children the coming calls of `fork` create. -/
  children : Nat → Child
  /-- Whether `execl` replaces the process image. -/
  execl_ok : Bool
  /-- The coming answers of `gettimeofday`: `none` for -1, else `tv_sec` and `tv_usec`. -/
  gettimeofday : Nat → Option (Int × Int)
  /-- The `tv_sec` left in an uninitialised `struct timeval`. -/
  indeterminate : Int
  /-- The statuses the coming calls of `system` return. -/
  system : Nat → Int
  /-- Whether the coming calls of `malloc` succeed. -/
  malloc_ok : Nat → Bool
  /-- The result of `kill(pid, sig)`. -/
  kill : Int → Int → Int
  /-- The name `strsignal` gives a signal number. -/
  strsignal : Int → Option String

/-- The world after one call of `open`. -/
def World.after_open (w : World) : World :=
  { w with open_ok := fun n => w.open_ok (n + 1) }

/-- The world after one call of `read`. -/
def World.after_read (w : World) : World :=
  { w with read_ok := fun n => w.read_ok (n + 1) }

/-- The world after one call of `fork`. -/
def World.after_fork (w : World) : World :=
  { w with children := fun n => w.children (n + 1) }

/-- The world after one call of `gettimeofday`. -/
def World.after_gettimeofday (w : World) : World :=
  { w with gettimeofday := fun n => w.gettimeofday (n + 1) }

/-- The world after one call of `system`. -/
def World.after_system (w : World) : World :=
  { w with system := fun n => w.system (n + 1) }

/-- The world after one call of `malloc`. -/
def World.after_malloc (w : World) : World :=
  { w with malloc_ok := fun n => w.malloc_ok (n + 1) }

/-- How a function that may end the process comes back. `undefined` stands for
behaviour the C standard leaves undefined (a read past the end of a buffer). -/
inductive Outcome where
  | returned
  | exit (code : Int)
  | replaced
  | undefined
deriving DecidableEq, Repr

/-! ## PID files (mon.c 103-177) -/

/-- The NUL character. -/
def NUL : Char := Char.ofNat 0

/-- The escape character written `\e` in the format strings of the source. -/
def ESC : String := String.singleton (Char.ofNat 27)

/-- The value `timestamp` computes from an answer of `gettimeofday` (mon.c 106-108):
-1 on failure, else `tv_sec * 1000 + tv_usec / 1000` in `int64_t`. -/
def tv_ms (tv : Option (Int × Int)) : Int :=
  match tv with
  | none => -1
  | some tv => wrap64 (wrap64 (tv.1 * 1000) + Int.tdiv tv.2 1000)

/-- Embedding of `timestamp` (mon.c 103-109). -/
def timestamp (w : World) : Int × World :=
  (tv_ms (w.gettimeofday 0), w.after_gettimeofday)

/-- The 32 bytes `write_pidfile` writes (mon.c 117-118): `char buf[32] = { 0 }` after
`snprintf(buf, 32, "%d", pid)`. -/
def pidfile_buf (pid : Int) : List Char :=
  let text := snprintf 32 (lld pid)
  text ++ List.replicate (32 - text.length) NUL

/-- Embedding of `write_pidfile` (mon.c 115-123).  `open` is called with
`O_WRONLY | O_CREAT` and no `O_TRUNC`: the 32 bytes of `buf` overwrite the start of the
file and bytes beyond them stay.  On a failed `open`, `write` and `close` act on an
invalid descriptor and change nothing. -/
def write_pidfile (w : World) (file : String) (pid : Int) : List Event × World :=
  let buf := pidfile_buf pid
  if w.open_ok 0 then
    ([], { w.after_open with
           fs := fun f => if f = file then some (buf ++ ((w.fs file).getD []).drop 32)
                          else w.fs f })
  else ([Event.perror "open()"], w.after_open)

/-- Embedding of `alive` (mon.c 80-83). -/
def alive (w : World) (pid : Int) : Bool := 0 = w.kill pid 0

/-- Embedding of `show_status_of` (mon.c 129-177); `MS_MAX` is the buffer size of
`ms.h`. -/
def show_status_of (MS_MAX : Nat) (w : World) (pidfile : String) :
    List Event × Outcome × World :=
  -- stat
  match w.fs pidfile with
  | none => ([Event.perror "stat()"], Outcome.exit 1, w)
  | some data =>
    -- opens
    if w.open_ok 0 = false then ([Event.perror "open()"], Outcome.exit 1, w.after_open)
    -- read
    else if w.after_open.read_ok 0 = false then
      ([Event.perror "read()"], Outcome.exit 1, w.after_open.after_read)
    else
      let w2 := w.after_open.after_read
      let buf := data
      -- uptime
      let modified := w.mtime pidfile
      let now := match w2.gettimeofday 0 with
        | some tv => tv.1
        | none => w2.indeterminate
      let w3 := w2.after_gettimeofday
      let secs := wrap64 (now - modified)
      -- status
      match atoi_buf buf with
      | none => ([], Outcome.undefined, w3)
      | some pid =>
        if alive w3 pid then
          let str := milliseconds_to_long_string MS_MAX (w3.malloc_ok 0) (mul64 secs 1000)
          ([Event.kill pid 0,
            Event.printf (ESC ++ "[90m%d" ++ ESC ++ "[0m : " ++ ESC ++ "[32malive" ++ ESC ++
                "[0m : uptime %s" ++ ESC ++ "[m\n")
              [Arg.int pid, Arg.str (str.map List.asString)]],
            Outcome.returned, w3.after_malloc)
        else
          ([Event.kill pid 0,
            Event.printf (ESC ++ "[90m%d" ++ ESC ++ "[0m : " ++ ESC ++ "[31mdead" ++ ESC ++
                "[0m\n") [Arg.int pid]],
            Outcome.returned, w3)

/-! ## Supervision loop (mon.c 217-342) -/

/-- Embedding of `exec_restart_command` (mon.c 221-226). -/
def exec_restart_command (pfx : Option String) (monitor : monitor_t) (w : World) :
    List Event × World :=
  let status := w.system 0
  ([Event.log pfx "on restart `%s`" [Arg.str monitor.on_restart],
    Event.system monitor.on_restart] ++
    (if status ≠ 0 then [Event.log pfx "exit(%d)" [Arg.int status]] else []),
   w.after_system)

/-- Embedding of `exec_error_command` (mon.c 232-237). -/
def exec_error_command (pfx : Option String) (monitor : monitor_t) (w : World) :
    List Event × World :=
  let status := w.system 0
  ([Event.log pfx "on error `%s`" [Arg.str monitor.on_error],
    Event.system monitor.on_error] ++
    (if status ≠ 0 then [Event.log pfx "exit(%d)" [Arg.int status]] else []),
   w.after_system)

/-- Embedding of `ms_since_last_restart` (mon.c 243-248). -/
def ms_since_last_restart (monitor : monitor_t) (w : World) : Int × World :=
  if 0 = monitor.last_restart_at then (0, w)
  else
    let now := timestamp w
    (wrap64 (now.1 - monitor.last_restart_at), now.2)

/-- One pass through the body of `start`: what it did, the monitor and the world it
leaves, and how it ended the process, or `none` when it reached `goto exec`. -/
structure Pass where
  events : List Event
  monitor : monitor_t
  world : World
  halt : Option Outcome

/-- The abort branch of `start`, the body of `if (attempts_exceeded(monitor, ms))` up to
`exit(2)` (mon.c 331-335); `monitor` is the monitor `attempts_exceeded` left. -/
def start_abort (MS_MAX : Nat) (pfx : Option String) (monitor : monitor_t) (w : World) :
    List Event × World :=
  let time := milliseconds_to_long_string MS_MAX (w.malloc_ok 0) (wrap64 (60000 - monitor.clock))
  let e := exec_error_command pfx monitor w.after_malloc
  ([Event.log pfx "%d restarts within %s, bailing"
      [Arg.int monitor.max_attempts, Arg.str (time.map List.asString)]] ++
    e.1 ++ [Event.log pfx "bye :)" []], e.2)

/-- The first half of the block `error:` of `start` (mon.c 324-328): the on-restart
hook, the elapsed time, the new `last_restart_at` and the two log lines.  Returns the
events, the monitor, the elapsed milliseconds `ms`, and the world. -/
def start_restart (MS_MAX : Nat) (pfx : Option String) (monitor : monitor_t) (w : World) :
    List Event × monitor_t × Int × World :=
  let r := if monitor.on_restart.isSome then exec_restart_command pfx monitor w else ([], w)
  let ms := ms_since_last_restart monitor r.2
  let now := timestamp ms.2
  let monitor := { monitor with last_restart_at := now.1 }
  let ago := milliseconds_to_long_string MS_MAX (now.2.malloc_ok 0) ms.1
  (r.1 ++
    [Event.log pfx "last restart %s ago" [Arg.str (ago.map List.asString)],
     Event.log pfx "%d attempts remaining"
       [Arg.int (wrap32 (monitor.max_attempts - monitor.attempts))]],
   monitor, ms.1, now.2.after_malloc)

/-- The block `error:` of `start` (mon.c 323-339). -/
def start_error (MS_MAX : Nat) (pfx : Option String) (monitor : monitor_t) (w : World) :
    Pass :=
  let r := start_restart MS_MAX pfx monitor w
  let x := attempts_exceeded r.2.1 r.2.2.1
  if x.2 ≠ 0 then
    let a := start_abort MS_MAX pfx x.1 r.2.2.2
    { events := r.1 ++ a.1, monitor := x.1, world := a.2, halt := some (Outcome.exit 2) }
  else
    { events := r.1, monitor := x.1, world := r.2.2.2, halt := none }

/-- The `default:` case of the `switch` in `start`, up to the label `error:` (mon.c
294-320): the supervisor logs the child, writes the pidfile, waits for the exit of the
child and classifies its status. -/
def start_wait (pfx : Option String) (monitor : monitor_t) (w : World) (child : Child) :
    List Event × World :=
  let pid := child.pid
  -- write pidfile
  let wr := match monitor.pidfile with
    | some file =>
      let r := write_pidfile w file pid
      (Event.log pfx "write pid to %s" [Arg.str (some file)] :: r.1, r.2)
    | none => ([], w)
  -- wait for exit
  let evs := match child.status with
    -- signalled
    | WaitStatus.signaled sig =>
      [Event.log pfx "signal(%s)" [Arg.str (w.strsignal sig)],
       Event.log pfx "sleep(%d)" [Arg.int monitor.sleepsec],
       Event.sleep monitor.sleepsec]
    -- check status
    | WaitStatus.exited code =>
      if code ≠ 0 then
        [Event.log pfx "exit(%d)" [Arg.int code],
         Event.log pfx "sleep(%d)" [Arg.int monitor.sleepsec],
         Event.sleep monitor.sleepsec]
      else []
  (Event.log pfx "child %d" [Arg.int pid] :: wr.1 ++ Event.waitpid pid :: evs, wr.2)

/-- The block `exec:` of `start` (mon.c 279-339), one pass from `fork` to `goto exec` or
to the end of the process.  A `fork` that returns 0 is the pass seen from the child. -/
def start_exec (MS_MAX : Nat) (pfx : Option String) (cmd : String) (monitor : monitor_t)
    (w : World) : Pass :=
  let child := w.children 0
  let pid := child.pid
  let w0 := w.after_fork
  if pid = -1 then
    { events := [Event.fork pid, Event.perror "fork()"]
      monitor := monitor, world := w0, halt := some (Outcome.exit 1) }
  else if pid = 0 then
    let ev := [Event.fork pid, Event.signal_dfl "SIGTERM", Event.signal_dfl "SIGQUIT",
      Event.log pfx "sh -c \"%s\"" [Arg.str (some cmd)], Event.execl_sh cmd]
    if w0.execl_ok then
      { events := ev, monitor := monitor, world := w0, halt := some Outcome.replaced }
    else
      { events := ev ++ [Event.perror "execl()"]
        monitor := monitor, world := w0, halt := some (Outcome.exit 1) }
  else
    let r := start_wait pfx monitor w0 child
    -- restart
    let e := start_error MS_MAX pfx monitor r.2
    { e with events := Event.fork pid :: r.1 ++ e.events }

/-- Embedding of `start` (mon.c 277-342): passes through `exec:` until the process ends.
`fuel` bounds the number of passes; the outcome is `none` when the loop is still running
after `fuel` passes. -/
def start (MS_MAX : Nat) (pfx : Option String) (cmd : String) :
    Nat → monitor_t → World → List Event × Option Outcome
  | 0, _, _ => ([], none)
  | fuel + 1, monitor, w =>
    let p := start_exec MS_MAX pfx cmd monitor w
    match p.halt with
    | some o => (p.events, some o)
    | none =>
      let r := start MS_MAX pfx cmd fuel p.monitor p.world
      (p.events ++ r.1, r.2)

/-! ## Vocabulary of the specification -/

/-- A world for examples: the command exits with status 1 at once, every call succeeds,
the clock stands at 1 700 000 000 s, and `mon.pid` already holds 40 bytes. -/
def example_world : World :=
  { fs := fun f => if f = "mon.pid" then some (List.replicate 40 '9') else none
    mtime := fun _ => 1700000000
    open_ok := fun _ => true
    read_ok := fun _ => true
    children := fun i => { pid := 4000 + i, status := WaitStatus.exited 1 }
    execl_ok := true
    gettimeofday := fun _ => some (1700000000, 0)
    indeterminate := 0
    system := fun _ => 0
    malloc_ok := fun _ => true
    kill := fun _ _ => 0
    strsignal := fun _ => none }

/-- A restart decision for examples: the second of the decisions made from the initial
monitor for the elapsed times 20000, 40000, 5; it falls exactly on the end of the
window. -/
def example_decision : Decision :=
  { before := { monitor_init with attempts := 1, clock := 40000 }
    ms := 40000
    after := monitor_init
    ret := 0 }

/-- The event is a `fork`. -/
def is_fork : Event → Bool
  | Event.fork _ => true
  | _ => false

/-- The event is a call of `system`. -/
def is_system : Event → Bool
  | Event.system _ => true
  | _ => false

/-- The event is a `log` with the given format. -/
def is_log (fmt : String) : Event → Bool
  | Event.log _ f _ => f = fmt
  | _ => false


/-- The unit suffixes of a duration string with the milliseconds each stands for; the
empty suffix counts milliseconds. -/
def ms_units : List (List Char × Int) :=
  [(['m', 's'], 1), ([], 1), (['s'], 1000), (['m'], 60000), (['h'], 3600000),
    (['d'], 86400000), (['w'], 604800000), (['y'], 31557600000)]

/-- The string begins with a decimal number as `strtoll` reads one: after optional
white space and an optional sign comes a decimal digit. -/
def begins_with_number (str : List Char) : Bool :=
  match (scan_sign str).2 with
  | [] => false
  | c :: _ => isdigit c

/-- The units of the long duration format: length in milliseconds and name. -/
def long_units : List (Int × List Char) :=
  [(1000, "second".toList), (60000, "minute".toList), (3600000, "hour".toList),
    (86400000, "day".toList), (604800000, "week".toList), (31557600000, "year".toList)]

/-- Counts over a trace: calls of `fork` (launches of the command), restart decisions
(passes through `error:`, each of which logs "last restart ... ago" once), runs of the
on-restart hook (`exec_restart_command`, which alone logs "on restart"), runs of the
on-error hook (`exec_error_command`, which alone logs "on error"), and calls of
`system`. -/
def tally (evs : List Event) : Nat × Nat × Nat × Nat × Nat :=
  (evs.countP is_fork, evs.countP (is_log "last restart %s ago"),
    evs.countP (is_log "on restart `%s`"), evs.countP (is_log "on error `%s`"),
    evs.countP is_system)

/-- The hook calls of a trace are those of the command `cmd`: every call of `system` in
it is `system(cmd)`, and every `log` line with the format `fmt` is `log(fmt, cmd)` under
the log prefix `pfx`. -/
def hook_calls_are (pfx : Option String) (fmt : String) (cmd : Option String)
    (evs : List Event) : Bool :=
  evs.all fun e =>
    (!is_system e || decide (e = Event.system cmd)) &&
    (!is_log fmt e || decide (e = Event.log pfx fmt [Arg.str cmd]))

/-- The timestamp (in milliseconds) that the `i`-th coming call of `timestamp` returns. -/
def World.reading (w : World) (i : Nat) : Int := tv_ms (w.gettimeofday i)

/-! ## Theorems -/

theorem wrap32_id {x : Int} (h : isInt32 x) : wrap32 x = x := by
  unfold isInt32 INT_MIN INT_MAX at h
  unfold wrap32
  omega

theorem wrap64_id {x : Int} (h : isInt64 x) : wrap64 x = x := by
  unfold isInt64 LLONG_MIN LLONG_MAX at h
  unfold wrap64
  omega

/-- The result of one call of `attempts_exceeded` when `attempts + 1` is an `int` and
`clock - ms` an `int64_t`. -/
theorem attempts_exceeded_eq (m : monitor_t) (ms : Int)
    (ha : isInt32 (m.attempts + 1)) (hc : isInt64 (m.clock - ms)) :
    attempts_exceeded m ms =
      if m.clock - ms ≤ 0 then
        ({ m with clock := 60000, attempts := 0 }, 0)
      else
        ({ m with attempts := m.attempts + 1, clock := m.clock - ms },
          if m.attempts + 1 ≥ m.max_attempts then 1 else 0) := by
  unfold attempts_exceeded
  simp only [wrap32_id ha, wrap64_id hc]
  by_cases h1 : m.clock - ms ≤ 0
  · simp [h1]
  · by_cases h2 : m.attempts + 1 < m.max_attempts
    · have h3 : ¬ (m.max_attempts ≤ m.attempts + 1) := by omega
      simp [h1, h2, h3]
    · have h3 : m.max_attempts ≤ m.attempts + 1 := by omega
      simp [h1, h2, h3]

/-- C1. One call of `attempts_exceeded` on a monitor with attempts `a`, clock `c` and
limit `N`, where `a + 1` is an `int` and `c - ms` an `int64_t`: when `c - ms ≤ 0`
(`ms = c` included) the call stores clock 60000 and attempts 0 and returns 0, whatever
`a + 1` and `N` are; otherwise it stores attempts `a + 1` and clock `c - ms` and returns
1 exactly when `a + 1 ≥ N`, else 0. -/
theorem attempts_exceeded_policy (m : monitor_t) (ms : Int)
    (ha : isInt32 (m.attempts + 1)) (hc : isInt64 (m.clock - ms)) :
    (m.clock - ms ≤ 0 →
      attempts_exceeded m ms = ({ m with clock := 60000, attempts := 0 }, 0)) ∧
    (0 < m.clock - ms →
      attempts_exceeded m ms =
        ({ m with attempts := m.attempts + 1, clock := m.clock - ms },
          if m.attempts + 1 ≥ m.max_attempts then 1 else 0)) := by
  rw [attempts_exceeded_eq m ms ha hc]
  constructor
  · intro h
    rw [if_pos h]
  · intro h
    rw [if_neg (by omega)]

/-- Witness of C1 at the boundary `ms = clock`: 2 attempts, clock 1500, limit 3 and
1500 elapsed milliseconds reset the window although the third attempt reaches the
limit. -/
theorem attempts_exceeded_policy_witness :
    attempts_exceeded { monitor_init with attempts := 2, clock := 1500, max_attempts := 3 } 1500
      = ({ monitor_init with attempts := 0, clock := 60000, max_attempts := 3 }, 0) :=
  (attempts_exceeded_policy
    { monitor_init with attempts := 2, clock := 1500, max_attempts := 3 } 1500
    (by unfold isInt32 INT_MIN INT_MAX monitor_init; decide)
    (by unfold isInt64 LLONG_MIN LLONG_MAX monitor_init; decide)).1 (by decide)

/-- The monitor between two restart decisions: attempts are below the limit (or zero),
and the window budget is positive and at most 60000. -/
theorem decision_log_invariant (l : List Int) :
    ∀ m : monitor_t, isInt32 m.max_attempts →
      0 ≤ m.attempts → (m.attempts < m.max_attempts ∨ m.attempts = 0) →
      0 < m.clock → m.clock ≤ 60000 →
      (∀ ms ∈ l, 0 ≤ ms ∧ isInt64 ms) →
      ∀ d ∈ decision_log m l,
        (0 ≤ d.before.attempts ∧ 0 < d.before.clock ∧ d.before.clock ≤ 60000) ∧
        (0 ≤ d.after.attempts ∧ 0 < d.after.clock ∧ d.after.clock ≤ 60000) ∧
        (d.before.clock - d.ms ≤ 0 → d.after.clock = 60000 ∧ d.after.attempts = 0) := by
  induction l with
  | nil => intro m _ _ _ _ _ _ d hd; simp [decision_log] at hd
  | cons ms rest ih =>
    intro m hN ha0 haN hc0 hc1 hl d hd
    have hms := hl ms (by simp)
    have hms0 := hms.1
    have hms1 := hms.2
    unfold isInt64 LLONG_MIN LLONG_MAX at hms1
    have hN1 := hN
    unfold isInt32 INT_MIN INT_MAX at hN1
    have hpol := attempts_exceeded_eq m ms
      (by unfold isInt32 INT_MIN INT_MAX; omega)
      (by unfold isInt64 LLONG_MIN LLONG_MAX; omega)
    simp only [decision_log, List.mem_cons] at hd
    rcases hd with hd | hd
    · subst hd
      rw [hpol]
      by_cases h1 : m.clock - ms ≤ 0
      · simp [h1]; omega
      · simp only [h1, if_false]
        refine ⟨⟨ha0, hc0, hc1⟩, ⟨?_, ?_, ?_⟩, ?_⟩
        · show 0 ≤ m.attempts + 1
          omega
        · show 0 < m.clock - ms
          omega
        · show m.clock - ms ≤ 60000
          omega
        · intro h
          exact False.elim h
    · rw [hpol] at hd
      by_cases h1 : m.clock - ms ≤ 0
      · simp only [h1, if_true] at hd
        exact ih { m with clock := 60000, attempts := 0 } hN (le_refl 0) (Or.inr rfl)
          (show (0 : Int) < 60000 by decide) (le_refl 60000) (fun x hx => hl x (by simp [hx])) d hd
      · simp only [h1, if_false] at hd
        by_cases h2 : m.attempts + 1 ≥ m.max_attempts
        · simp [h2] at hd
        · simp only [h2, if_false, if_true] at hd
          exact ih { m with attempts := m.attempts + 1, clock := m.clock - ms } hN
            (by simp; omega) (by simp; omega) (by simp; omega) (by simp; omega)
            (fun x hx => hl x (by simp [hx])) d hd

/-- C5. Supervisor-state invariant: from attempts 0 and clock 60000, through any
sequence of restart decisions with elapsed `ms ≥ 0`, the monitor before and after every
decision has `0 ≤ attempts` and `0 < clock ≤ 60000`, and a decision that brings the
budget to zero or below leaves clock 60000 and attempts 0. -/
theorem supervisor_state_invariant (m0 : monitor_t) (l : List Int)
    (ha : m0.attempts = 0) (hc : m0.clock = 60000) (hN : isInt32 m0.max_attempts)
    (hl : ∀ ms ∈ l, 0 ≤ ms ∧ isInt64 ms) :
    ∀ d ∈ decision_log m0 l,
      (0 ≤ d.before.attempts ∧ 0 < d.before.clock ∧ d.before.clock ≤ 60000) ∧
      (0 ≤ d.after.attempts ∧ 0 < d.after.clock ∧ d.after.clock ≤ 60000) ∧
      (d.before.clock - d.ms ≤ 0 → d.after.clock = 60000 ∧ d.after.attempts = 0) :=
  decision_log_invariant l m0 hN (by omega) (Or.inr ha) (by omega) (by omega) hl

/-- Witness of C5: of three decisions from the initial monitor, the second falls exactly
on the end of the window and resets it. -/
theorem supervisor_state_invariant_witness :
    (0 ≤ example_decision.before.attempts ∧ 0 < example_decision.before.clock ∧
      example_decision.before.clock ≤ 60000) ∧
    (0 ≤ example_decision.after.attempts ∧ 0 < example_decision.after.clock ∧
      example_decision.after.clock ≤ 60000) ∧
    (example_decision.before.clock - example_decision.ms ≤ 0 →
      example_decision.after.clock = 60000 ∧ example_decision.after.attempts = 0) :=
  supervisor_state_invariant monitor_init [20000, 40000, 5] rfl rfl
    (by unfold isInt32 INT_MIN INT_MAX monitor_init; decide)
    (by unfold isInt64 LLONG_MIN LLONG_MAX; decide)
    example_decision (by decide)

/-- Once the window is full (clock 60000) and at most one attempt is counted, decisions
that each see at least 60000 elapsed milliseconds all reset the window. -/
theorem decision_log_spaced (l : List Int) :
    ∀ m : monitor_t, 0 ≤ m.attempts → m.attempts ≤ 1 → m.clock = 60000 →
      (∀ ms ∈ l, 60000 ≤ ms ∧ isInt64 ms) →
      (decision_log m l).length = l.length ∧
      ∀ d ∈ decision_log m l, d.ret = 0 ∧ d.after.attempts ≤ 1 := by
  induction l with
  | nil => intro m _ _ _ _; simp [decision_log]
  | cons ms rest ih =>
    intro m ha0 ha1 hc hl
    have hms := hl ms (by simp)
    have hms0 := hms.1
    have hms1 := hms.2
    unfold isInt64 LLONG_MIN LLONG_MAX at hms1
    have hpol := attempts_exceeded_eq m ms
      (by unfold isInt32 INT_MIN INT_MAX; omega)
      (by unfold isInt64 LLONG_MIN LLONG_MAX; omega)
    have h1 : m.clock - ms ≤ 0 := by omega
    simp only [h1, if_true] at hpol
    have hrec := ih { m with clock := 60000, attempts := 0 } (le_refl 0)
      (show (0 : Int) ≤ 1 by decide) rfl (fun x hx => hl x (by simp [hx]))
    simp only [decision_log, hpol, if_true, List.length_cons, List.mem_cons]
    refine ⟨by rw [hrec.1], ?_⟩
    intro d hd
    rcases hd with hd | hd
    · subst hd
      exact ⟨rfl, show (0 : Int) ≤ 1 by decide⟩
    · exact hrec.2 d hd

/-- C3, amended to limits `N ≥ 2`. When the first restart decision sees 0 elapsed
milliseconds and every later one at least 60000, then from attempts 0 and clock 60000
every decision of the sequence is made, none returns 1, and the attempt counter left by
each decision is at most 1. -/
theorem spaced_failures_never_abort (m0 : monitor_t) (rest : List Int)
    (ha : m0.attempts = 0) (hc : m0.clock = 60000)
    (hN2 : 2 ≤ m0.max_attempts)
    (hl : ∀ ms ∈ rest, 60000 ≤ ms ∧ isInt64 ms) :
    (decision_log m0 (0 :: rest)).length = rest.length + 1 ∧
    ∀ d ∈ decision_log m0 (0 :: rest), d.ret = 0 ∧ d.after.attempts ≤ 1 := by
  have hpol := attempts_exceeded_eq m0 0
    (by unfold isInt32 INT_MIN INT_MAX; omega)
    (by unfold isInt64 LLONG_MIN LLONG_MAX; omega)
  have h1 : ¬ (m0.clock - 0 ≤ 0) := by omega
  have h2 : ¬ (m0.attempts + 1 ≥ m0.max_attempts) := by omega
  simp only [h1, h2, if_false] at hpol
  have hrec := decision_log_spaced rest
    { m0 with attempts := m0.attempts + 1, clock := m0.clock - 0 }
    (show 0 ≤ m0.attempts + 1 by omega) (show m0.attempts + 1 ≤ 1 by omega)
    (show m0.clock - 0 = 60000 by omega) hl
  simp only [decision_log, hpol, if_true, List.length_cons, List.mem_cons]
  refine ⟨by rw [hrec.1], ?_⟩
  intro d hd
  rcases hd with hd | hd
  · subst hd
    exact ⟨rfl, show m0.attempts + 1 ≤ 1 by omega⟩
  · exact hrec.2 d hd

/-- Witness of C3 (amended): limit 10, failures 60 and 75 seconds apart. -/
theorem spaced_failures_never_abort_witness :
    (decision_log monitor_init (0 :: [60000, 75000])).length = [60000, 75000].length + 1 ∧
    ∀ d ∈ decision_log monitor_init (0 :: [60000, 75000]), d.ret = 0 ∧ d.after.attempts ≤ 1 :=
  spaced_failures_never_abort monitor_init [60000, 75000] rfl rfl
    (by unfold monitor_init; decide)
    (by unfold isInt64 LLONG_MIN LLONG_MAX; decide)

/-- Counterexample to C3 as stated (limit `N = 1`): the first restart decision, which
sees 0 elapsed milliseconds, already returns 1, so the supervisor aborts however far
apart later failures would have been. -/
theorem spaced_failures_abort_at_limit_one :
    (decision_log { monitor_init with max_attempts := 1 } [0, 60000, 60000]).map
        (fun d => (d.ms, d.after.attempts, d.after.clock, d.ret)) = [(0, 1, 60000, 1)] ∧
    ¬ (∀ d ∈ decision_log { monitor_init with max_attempts := 1 } [0, 60000, 60000],
        d.ret = 0 ∧ d.after.attempts ≤ 1) := by
  constructor
  · decide
  · intro h
    have h0 := h
      { before := { monitor_init with max_attempts := 1 }
        ms := 0
        after := { monitor_init with max_attempts := 1, attempts := 1 }
        ret := 1 } (by decide)
    exact absurd h0.1 (by decide)

/-! ### Decimal numerals -/

theorem digitChar_toNat {d : Nat} (h : d < 10) : (digitChar d).toNat = 48 + d := by
  interval_cases d <;> rfl

theorem isdigit_digitChar {d : Nat} (h : d < 10) : isdigit (digitChar d) = true := by
  simp [isdigit, digitChar_toNat h]
  omega

theorem revDigits_digit (f : Nat) : ∀ n c, c ∈ revDigits f n → ∃ d, d < 10 ∧ c = digitChar d := by
  induction f with
  | zero => intro n c hc; simp [revDigits] at hc
  | succ f ih =>
    intro n c hc
    simp only [revDigits, List.mem_cons] at hc
    rcases hc with hc | hc
    · exact ⟨n % 10, Nat.mod_lt _ (by decide), hc⟩
    · by_cases h : n / 10 = 0
      · simp [h] at hc
      · simp only [h, if_false] at hc
        exact ih _ _ hc

theorem decimal_digit {n : Nat} {c : Char} (hc : c ∈ decimal n) :
    ∃ d, d < 10 ∧ c = digitChar d :=
  revDigits_digit (n + 1) n c (by simpa [decimal] using hc)

theorem revDigits_value (f : Nat) : ∀ n, n < f →
    (revDigits f n).foldr (fun c a => a * 10 + (c.toNat - 48)) 0 = n := by
  induction f with
  | zero => intro n h; omega
  | succ f ih =>
    intro n h
    have hd := digitChar_toNat (Nat.mod_lt n (show 0 < 10 by decide))
    by_cases h0 : n / 10 = 0
    · simp only [revDigits, h0, if_true, List.foldr_cons, List.foldr_nil, hd]
      omega
    · have hr := ih (n / 10) (by omega)
      simp only [revDigits, h0, if_false, List.foldr_cons, hd, hr]
      omega

theorem decimal_value (n : Nat) :
    (decimal n).foldl (fun a c => a * 10 + (c.toNat - 48)) 0 = n := by
  unfold decimal
  rw [List.foldl_reverse]
  exact revDigits_value (n + 1) n (by omega)

theorem decimal_getLast (n : Nat) : (decimal n).getLast? = some (digitChar (n % 10)) := by
  simp [decimal, revDigits, List.getLast?_reverse]

theorem scan_digits_append (ds : List Char) :
    ∀ (acc : Nat) (rest : List Char), (∀ c ∈ ds, isdigit c = true) →
      (∀ c, rest.head? = some c → isdigit c = false) →
      scan_digits acc (ds ++ rest) =
        (ds.foldl (fun a c => a * 10 + (c.toNat - 48)) acc, rest) := by
  induction ds with
  | nil =>
    intro acc rest _ hr
    cases rest with
    | nil => simp [scan_digits]
    | cons c cs => simp [scan_digits, hr c (by simp)]
  | cons d ds ih =>
    intro acc rest hd hr
    have h1 : isdigit d = true := hd d (by simp)
    simp only [List.cons_append, scan_digits, h1, if_true, List.foldl_cons]
    exact ih _ rest (fun c hc => hd c (by simp [hc])) hr

/-- Reading back a printed numeral: `strtoll` scans the decimal numeral of `n` up to the
first character that is not a digit. -/
theorem scan_integer_decimal (n : Nat) (rest : List Char)
    (hr : ∀ c, rest.head? = some c → isdigit c = false) :
    scan_integer (decimal n ++ rest) = ((n : Int), rest) := by
  have hlast := decimal_getLast n
  cases hdec : decimal n with
  | nil => simp [hdec] at hlast
  | cons c t =>
    obtain ⟨d, hd, hcd⟩ := decimal_digit (n := n) (c := c) (by simp [hdec])
    have hdig : isdigit c = true := hcd ▸ isdigit_digitChar hd
    have hnat : c.toNat = 48 + d := hcd ▸ digitChar_toNat hd
    have hsp : isspace c = false := by simp [isspace, hnat]; omega
    have hminus : c ≠ '-' := by
      intro h; rw [h] at hnat; revert hnat; simp; omega
    have hplus : c ≠ '+' := by
      intro h; rw [h] at hnat; revert hnat; simp; omega
    have hscan := scan_digits_append (decimal n) 0 rest
      (fun x hx => by
        obtain ⟨e, he, hxe⟩ := decimal_digit hx
        exact hxe ▸ isdigit_digitChar he) hr
    rw [decimal_value, hdec] at hscan
    simp only [List.cons_append] at hscan
    simp [scan_integer, scan_sign, List.dropWhile, hsp, hminus, hplus, hdig, hscan]

theorem strtoll_decimal (n : Nat) (rest : List Char) (hn : (n : Int) ≤ LLONG_MAX)
    (hr : ∀ c, rest.head? = some c → isdigit c = false) :
    strtoll (decimal n ++ rest) = (n : Int) := by
  unfold strtoll
  rw [scan_integer_decimal n rest hr]
  unfold LLONG_MAX at hn
  unfold clamp64 LLONG_MIN LLONG_MAX
  simp only []
  split_ifs <;> omega

theorem digitChar_ne_unit {d : Nat} (h : d < 10) :
    digitChar d ≠ 's' ∧ digitChar d ≠ 'm' ∧ digitChar d ≠ 'h' ∧ digitChar d ≠ 'd' ∧
      digitChar d ≠ 'w' ∧ digitChar d ≠ 'y' := by
  interval_cases d <;> decide

/-- C7. For a positive `n` and a unit suffix (`ms`, none, `s`, `m`, `h`, `d`, `w`, `y`)
whose scaled value `n * unit` fits in a signed 64-bit integer, `string_to_milliseconds`
of the decimal digits of `n` followed by the suffix is `n * unit`, and
`string_to_seconds` is that value divided by 1000, truncated. -/
theorem string_to_milliseconds_scaled (n : Nat) (suffix : List Char) (unit : Int)
    (hu : (suffix, unit) ∈ ms_units) (hn : 0 < n) (hfit : (n : Int) * unit ≤ LLONG_MAX) :
    string_to_milliseconds (decimal n ++ suffix) = (n : Int) * unit ∧
    string_to_seconds (decimal n ++ suffix) = Int.tdiv ((n : Int) * unit) 1000 := by
  have hlast := decimal_getLast n
  obtain ⟨hs, hm, hh, hd, hw, hy⟩ := digitChar_ne_unit (Nat.mod_lt n (show 0 < 10 by decide))
  have hn0 : (n : Int) ≠ 0 := by omega
  have hpos : (0 : Int) < n := by omega
  unfold LLONG_MAX at hfit
  have hu1 : 1 ≤ unit := by
    simp only [ms_units, List.mem_cons, Prod.mk.injEq, List.mem_singleton,
      List.not_mem_nil, or_false] at hu
    omega
  have hhead : ∀ c, suffix.head? = some c → isdigit c = false := by
    intro c hc
    simp only [ms_units, List.mem_cons, Prod.mk.injEq, List.mem_singleton,
      List.not_mem_nil, or_false] at hu
    rcases hu with h | h | h | h | h | h | h | h <;> obtain ⟨rfl, _⟩ := h <;>
      simp at hc <;> subst hc <;> decide
  have hval := strtoll_decimal n suffix
    (by unfold LLONG_MAX; nlinarith) hhead
  have key : string_to_milliseconds (decimal n ++ suffix) = (n : Int) * unit := by
    unfold string_to_milliseconds
    simp only [hval, hn0, if_false]
    simp only [ms_units, List.mem_cons, Prod.mk.injEq, List.mem_singleton,
      List.not_mem_nil, or_false] at hu
    rcases hu with h | h | h | h | h | h | h | h <;> obtain ⟨rfl, rfl⟩ := h
    · simp
    · simp [hlast, hs, hm, hh, hd, hw, hy]
    · have h2 : (decimal n ++ ['s']).dropLast = decimal n := by simp
      simp [h2, hlast, hm, mul64, wrap64]
      omega
    · simp [mul64, wrap64, MS_MIN]
      omega
    · simp [mul64, wrap64, MS_HOUR]
      omega
    · simp [mul64, wrap64, MS_DAY]
      omega
    · simp [mul64, wrap64, MS_WEEK]
      omega
    · simp [mul64, wrap64, MS_YEAR]
      omega
  refine ⟨key, ?_⟩
  unfold string_to_seconds
  simp only [key]
  have hprod : 0 < (n : Int) * unit := by positivity
  rw [if_neg (by omega)]

/-- Witness of C7: the durations `5s` and `1m`. -/
theorem string_to_milliseconds_scaled_witness :
    (string_to_milliseconds (decimal 5 ++ ['s']) = (5 : Nat) * 1000 ∧
      string_to_seconds (decimal 5 ++ ['s']) = Int.tdiv ((5 : Nat) * 1000) 1000) ∧
    (string_to_milliseconds (decimal 1 ++ ['m']) = (1 : Nat) * 60000 ∧
      string_to_seconds (decimal 1 ++ ['m']) = Int.tdiv ((1 : Nat) * 60000) 1000) :=
  ⟨string_to_milliseconds_scaled 5 ['s'] 1000 (by decide) (by decide) (by decide),
   string_to_milliseconds_scaled 1 ['m'] 60000 (by decide) (by decide) (by decide)⟩

theorem strtoll_no_number (str : List Char) (h : begins_with_number str = false) :
    strtoll str = 0 := by
  unfold begins_with_number at h
  have hsi : scan_integer str = (0, str) := by
    unfold scan_integer
    cases hp : (scan_sign str).2 with
    | nil => simp only [hp]
    | cons c t =>
      rw [hp] at h
      simp only [] at h
      simp only [hp, h]
      simp
  simp [strtoll, hsi, clamp64, LLONG_MIN, LLONG_MAX]

/-- C8. A duration string that does not begin with a decimal number (the empty string,
a bare unit suffix, any other text without a leading number) is rejected by
`string_to_milliseconds`, `string_to_microseconds` and `string_to_seconds` with -1. -/
theorem malformed_duration_rejected (str : List Char)
    (h : begins_with_number str = false) :
    string_to_milliseconds str = -1 ∧ string_to_microseconds str = -1 ∧
      string_to_seconds str = -1 := by
  have hv := strtoll_no_number str h
  have hms : string_to_milliseconds str = -1 := by
    simp [string_to_milliseconds, hv]
  refine ⟨hms, ?_, ?_⟩
  · simp [string_to_microseconds, hv]
  · simp [string_to_seconds, hms]

/-- Witness of C8: the empty string, the bare suffixes `s` and `ms`, and `hey`. -/
theorem malformed_duration_rejected_witness :
    (string_to_milliseconds [] = -1 ∧ string_to_microseconds [] = -1 ∧
      string_to_seconds [] = -1) ∧
    (string_to_milliseconds ['s'] = -1 ∧ string_to_microseconds ['s'] = -1 ∧
      string_to_seconds ['s'] = -1) ∧
    (string_to_milliseconds ['m', 's'] = -1 ∧ string_to_microseconds ['m', 's'] = -1 ∧
      string_to_seconds ['m', 's'] = -1) ∧
    (string_to_milliseconds ['h', 'e', 'y'] = -1 ∧
      string_to_microseconds ['h', 'e', 'y'] = -1 ∧
      string_to_seconds ['h', 'e', 'y'] = -1) :=
  ⟨malformed_duration_rejected [] (by decide),
   malformed_duration_rejected ['s'] (by decide),
   malformed_duration_rejected ['m', 's'] (by decide),
   malformed_duration_rejected ['h', 'e', 'y'] (by decide)⟩

/-- C10 at the input `1w`: `string_to_microseconds` returns 25 200 000 000, which is
seven hours (`US_WEEK` is `7 * US_HOUR`), while `string_to_milliseconds` returns
604 800 000, seven days; `1y` differs in the same way, and the suffixes up to `d`
agree. -/
theorem string_to_microseconds_week :
    string_to_microseconds (decimal 1 ++ ['w']) = 25200000000 ∧
    string_to_milliseconds (decimal 1 ++ ['w']) = 604800000 ∧
    string_to_microseconds (decimal 1 ++ ['w']) ≠
      1000 * string_to_milliseconds (decimal 1 ++ ['w']) ∧
    string_to_microseconds (decimal 1 ++ ['y']) = 1310400000000 ∧
    string_to_milliseconds (decimal 1 ++ ['y']) = 31557600000 ∧
    string_to_microseconds (decimal 2 ++ ['d']) =
      1000 * string_to_milliseconds (decimal 2 ++ ['d']) := by
  decide

theorem revDigits_length (f : Nat) : ∀ n k, n < 10 ^ (k + 1) →
    (revDigits f n).length ≤ k + 1 := by
  induction f with
  | zero => intro n k _; simp [revDigits]
  | succ f ih =>
    intro n k h
    by_cases h0 : n / 10 = 0
    · simp [revDigits, h0]
    · cases k with
      | zero => simp at h; omega
      | succ k =>
        have h1 : n / 10 < 10 ^ (k + 1) := by
          apply Nat.div_lt_of_lt_mul
          rw [pow_succ] at h
          omega
        have := ih (n / 10) k h1
        simp only [revDigits, h0, if_false, List.length_cons]
        omega

theorem lld_length {q : Int} (h0 : 0 ≤ q) (h : q < 1000000000) : (lld q).length ≤ 9 := by
  unfold lld decimal
  rw [if_neg (by omega), List.length_reverse]
  exact revDigits_length _ _ 8 (by norm_num; omega)

theorem snprintf_fits (MS_MAX : Nat) (out : List Char) (h : out.length + 1 ≤ MS_MAX) :
    snprintf MS_MAX out = out := by
  unfold snprintf
  exact List.take_of_length_le (by omega)

/-- The long format of one unit: the branch of `milliseconds_to_long_string` taken for a
quotient `q` below 10^9 and a unit name of at most six letters. -/
theorem long_format (MS_MAX : Nat) (hbuf : 21 ≤ MS_MAX) (q : Int) (name : List Char)
    (h0 : 0 ≤ q) (h : q < 1000000000) (hname : name.length ≤ 6) :
    (if 1 = q then some (snprintf MS_MAX (lld q ++ ' ' :: name))
      else some (snprintf MS_MAX (lld q ++ ' ' :: name ++ ['s']))) =
    some (lld q ++ ' ' :: name ++ (if q = 1 then [] else ['s'])) := by
  have hl := lld_length h0 h
  by_cases h1 : q = 1
  · subst h1
    rw [if_pos rfl, if_pos rfl, snprintf_fits _ _ (by simp; omega)]
    simp
  · rw [if_neg (fun e => h1 e.symm), if_neg h1, snprintf_fits _ _ (by simp; omega)]

/-- C9. For `0 ≤ ms` (a `long long`) and a buffer of at least 21 bytes,
`milliseconds_to_long_string` gives "less than one second" below 1000; otherwise the
decimal of `q`, a space and the unit name, with the largest unit of second, minute,
hour, day, week, year that does not exceed `ms`, `q = ms / unit` rounded down, and a
plural "s" exactly when `q` is not 1. -/
theorem milliseconds_to_long_string_spec (MS_MAX : Nat) (ms : Int)
    (hbuf : 21 ≤ MS_MAX) (h0 : 0 ≤ ms) (hfit : ms ≤ LLONG_MAX) :
    (ms < 1000 →
      milliseconds_to_long_string MS_MAX true ms = some "less than one second".toList) ∧
    (1000 ≤ ms →
      ∃ u name, (u, name) ∈ long_units ∧ u ≤ ms ∧
        (∀ p ∈ long_units, p.1 ≤ ms → p.1 ≤ u) ∧
        milliseconds_to_long_string MS_MAX true ms =
          some (lld (ms / u) ++ ' ' :: name ++ (if ms / u = 1 then [] else ['s']))) := by
  unfold LLONG_MAX at hfit
  constructor
  · intro h
    simp [milliseconds_to_long_string, MS_SEC, h]
  · intro h
    have hsec : ¬ ms < MS_SEC := by unfold MS_SEC; omega
    have hmax : ∀ u : Int, (∀ v ∈ [1000, 60000, 3600000, 86400000, 604800000,
        31557600000], v ≤ ms → v ≤ u) → ∀ p ∈ long_units, p.1 ≤ ms → p.1 ≤ u := by
      intro u hu p hp hle
      apply hu p.1 _ hle
      simp only [long_units, List.mem_cons, List.mem_singleton, List.not_mem_nil,
        or_false] at hp
      rcases hp with rfl | rfl | rfl | rfl | rfl | rfl <;> simp
    by_cases h1 : ms < MS_MIN
    · refine ⟨1000, "second".toList, by simp [long_units], h, hmax _ ?_, ?_⟩
      · unfold MS_MIN at h1
        intro v hv hle
        simp at hv
        omega
      · unfold MS_MIN at h1
        have ht : Int.tdiv ms MS_SEC = ms / 1000 := Int.tdiv_eq_ediv h0 (by decide)
        simp only [milliseconds_to_long_string, hsec, if_false, MS_MIN, h1, if_true, ht,
          Bool.true_eq_false]
        exact long_format MS_MAX hbuf _ _ (by omega) (by omega) (by decide)
    · by_cases h2 : ms < MS_HOUR
      · refine ⟨60000, "minute".toList, by simp [long_units], ?_, hmax _ ?_, ?_⟩
        · unfold MS_MIN MS_HOUR at *
          omega
        · unfold MS_MIN MS_HOUR at *
          intro v hv hle
          simp at hv
          omega
        · have ht : Int.tdiv ms MS_MIN = ms / 60000 := Int.tdiv_eq_ediv h0 (by decide)
          simp only [milliseconds_to_long_string, hsec, h1, h2, if_false, if_true, ht,
            Bool.true_eq_false]
          unfold MS_MIN MS_HOUR at *
          exact long_format MS_MAX hbuf _ _ (by omega) (by omega) (by decide)
      · by_cases h3 : ms < MS_DAY
        · refine ⟨3600000, "hour".toList, by simp [long_units], ?_, hmax _ ?_, ?_⟩
          · unfold MS_MIN MS_HOUR MS_DAY at *
            omega
          · unfold MS_MIN MS_HOUR MS_DAY at *
            intro v hv hle
            simp at hv
            omega
          · have ht : Int.tdiv ms MS_HOUR = ms / 3600000 := Int.tdiv_eq_ediv h0 (by decide)
            simp only [milliseconds_to_long_string, hsec, h1, h2, h3, if_false, if_true, ht,
              Bool.true_eq_false]
            unfold MS_MIN MS_HOUR MS_DAY at *
            exact long_format MS_MAX hbuf _ _ (by omega) (by omega) (by decide)
        · by_cases h4 : ms < MS_WEEK
          · refine ⟨86400000, "day".toList, by simp [long_units], ?_, hmax _ ?_, ?_⟩
            · unfold MS_MIN MS_HOUR MS_DAY MS_WEEK at *
              omega
            · unfold MS_MIN MS_HOUR MS_DAY MS_WEEK at *
              intro v hv hle
              simp at hv
              omega
            · have ht : Int.tdiv ms MS_DAY = ms / 86400000 := Int.tdiv_eq_ediv h0 (by decide)
              simp only [milliseconds_to_long_string, hsec, h1, h2, h3, h4, if_false, if_true, ht,
                Bool.true_eq_false]
              unfold MS_MIN MS_HOUR MS_DAY MS_WEEK at *
              exact long_format MS_MAX hbuf _ _ (by omega) (by omega) (by decide)
          · by_cases h5 : ms < MS_YEAR
            · refine ⟨604800000, "week".toList, by simp [long_units], ?_, hmax _ ?_, ?_⟩
              · unfold MS_MIN MS_HOUR MS_DAY MS_WEEK MS_YEAR at *
                omega
              · unfold MS_MIN MS_HOUR MS_DAY MS_WEEK MS_YEAR at *
                intro v hv hle
                simp at hv
                omega
              · have ht : Int.tdiv ms MS_WEEK = ms / 604800000 := Int.tdiv_eq_ediv h0 (by decide)
                simp only [milliseconds_to_long_string, hsec, h1, h2, h3, h4, h5, if_false, if_true, ht,
                  Bool.true_eq_false]
                unfold MS_MIN MS_HOUR MS_DAY MS_WEEK MS_YEAR at *
                exact long_format MS_MAX hbuf _ _ (by omega) (by omega) (by decide)
            · refine ⟨31557600000, "year".toList, by simp [long_units], ?_, hmax _ ?_, ?_⟩
              · unfold MS_MIN MS_HOUR MS_DAY MS_WEEK MS_YEAR at *
                omega
              · unfold MS_MIN MS_HOUR MS_DAY MS_WEEK MS_YEAR at *
                intro v hv hle
                simp at hv
                omega
              · have ht : Int.tdiv ms MS_YEAR = ms / 31557600000 := Int.tdiv_eq_ediv h0 (by decide)
                simp only [milliseconds_to_long_string, hsec, h1, h2, h3, h4, h5, if_false, ht,
                  Bool.true_eq_false]
                unfold MS_MIN MS_HOUR MS_DAY MS_WEEK MS_YEAR at *
                exact long_format MS_MAX hbuf _ _ (by omega) (by omega) (by decide)

/-- Witness of C9: 2500 ms with the buffer size 256. -/
theorem milliseconds_to_long_string_spec_witness :
    ((2500 : Int) < 1000 →
      milliseconds_to_long_string 256 true 2500 = some "less than one second".toList) ∧
    ((1000 : Int) ≤ 2500 →
      ∃ u name, (u, name) ∈ long_units ∧ u ≤ (2500 : Int) ∧
        (∀ p ∈ long_units, p.1 ≤ (2500 : Int) → p.1 ≤ u) ∧
        milliseconds_to_long_string 256 true 2500 =
          some (lld (2500 / u) ++ ' ' :: name ++ (if 2500 / u = 1 then [] else ['s']))) :=
  milliseconds_to_long_string_spec 256 2500 (by decide) (by decide) (by decide)

/-! ### PID-file round trip -/

theorem decimal_cons (n : Nat) : ∃ c t, decimal n = c :: t ∧ isdigit c = true ∧
    isspace c = false ∧ c ≠ '-' ∧ c ≠ '+' := by
  have hlast := decimal_getLast n
  cases hdec : decimal n with
  | nil => simp [hdec] at hlast
  | cons c t =>
    obtain ⟨d, hd, hcd⟩ := decimal_digit (n := n) (c := c) (by simp [hdec])
    have hnat : c.toNat = 48 + d := hcd ▸ digitChar_toNat hd
    refine ⟨c, t, rfl, hcd ▸ isdigit_digitChar hd, ?_, ?_, ?_⟩
    · simp [isspace, hnat]; omega
    · intro h; rw [h] at hnat; revert hnat; simp; omega
    · intro h; rw [h] at hnat; revert hnat; simp; omega

theorem scan_digits_decimal (n : Nat) (rest : List Char)
    (hr : ∀ c, rest.head? = some c → isdigit c = false) :
    scan_digits 0 (decimal n ++ rest) = (n, rest) := by
  have hscan := scan_digits_append (decimal n) 0 rest
    (fun x hx => by
      obtain ⟨e, he, hxe⟩ := decimal_digit hx
      exact hxe ▸ isdigit_digitChar he) hr
  rw [decimal_value] at hscan
  exact hscan

theorem lld_length_int32 {pid : Int} (h : isInt32 pid) : (lld pid).length ≤ 11 := by
  unfold isInt32 INT_MIN INT_MAX at h
  unfold lld decimal
  by_cases hneg : pid < 0
  · rw [if_pos hneg, List.length_cons, List.length_reverse]
    have := revDigits_length (pid.natAbs + 1) pid.natAbs 9 (by norm_num; omega)
    omega
  · rw [if_neg hneg, List.length_reverse]
    have := revDigits_length (pid.toNat + 1) pid.toNat 9 (by norm_num; omega)
    omega

/-- What `atoi` reads from a buffer that holds the `%d` text of an `int` followed by a
NUL: the `int`. -/
theorem atoi_buf_lld (pid : Int) (h : isInt32 pid) (rest : List Char) :
    atoi_buf (lld pid ++ NUL :: rest) = some pid := by
  have hr : ∀ c, (NUL :: rest).head? = some c → isdigit c = false := by
    intro c hc
    simp at hc
    subst hc
    decide
  unfold isInt32 INT_MIN INT_MAX at h
  by_cases hneg : pid < 0
  · obtain ⟨c, t, hdec, hdig, _, _, _⟩ := decimal_cons pid.natAbs
    have hsd := scan_digits_decimal pid.natAbs (NUL :: rest) hr
    have hsign : scan_sign (lld pid ++ NUL :: rest) =
        (true, decimal pid.natAbs ++ NUL :: rest) := by
      simp [lld, hneg, scan_sign, List.dropWhile, isspace]
    have hint : scan_integer (lld pid ++ NUL :: rest) = (pid, NUL :: rest) := by
      unfold scan_integer
      rw [hsign]
      simp only [hdec, List.cons_append, hdig, if_true]
      rw [← List.cons_append, ← hdec, hsd]
      have hnat : -(pid.natAbs : Int) = pid := by omega
      simp only [hnat]
    unfold atoi_buf
    simp only [hsign, hint, hdec]
    simp [clamp64, LLONG_MIN, LLONG_MAX, wrap32]
    split_ifs <;> omega
  · obtain ⟨c, t, hdec, hdig, hsp, hminus, hplus⟩ := decimal_cons pid.toNat
    have hint := scan_integer_decimal pid.toNat (NUL :: rest) hr
    have hsign : scan_sign (lld pid ++ NUL :: rest) =
        (false, decimal pid.toNat ++ NUL :: rest) := by
      simp [lld, hneg, scan_sign, hdec, List.dropWhile, hsp, hminus, hplus]
    have hl : lld pid = decimal pid.toNat := by simp [lld, hneg]
    unfold atoi_buf
    simp only [hsign]
    rw [hl, hint, hdec]
    simp [clamp64, LLONG_MIN, LLONG_MAX, wrap32]
    split_ifs <;> omega

theorem pidfile_buf_eq (pid : Int) (h : isInt32 pid) :
    ∃ pad, pidfile_buf pid = lld pid ++ NUL :: pad ∧ (pidfile_buf pid).length = 32 := by
  have hl := lld_length_int32 h
  have hs : snprintf 32 (lld pid) = lld pid := snprintf_fits 32 _ (by omega)
  unfold pidfile_buf
  simp only [hs]
  obtain ⟨k, hk⟩ : ∃ k, 32 - (lld pid).length = k + 1 := ⟨31 - (lld pid).length, by omega⟩
  refine ⟨List.replicate k NUL, ?_, ?_⟩
  · rw [hk, List.replicate_succ]
  · simp
    omega

/-- C6. PID-file round trip: whatever the file held before (nothing, less or more than
the 32 bytes written), after a `write_pidfile(file, pid)` whose `open` succeeds the file
holds bytes that `atoi` reads back as `pid`, and `show_status_of`, when its `open` and
`read` succeed, probes and prints exactly that `pid` and returns. -/
theorem pidfile_round_trip (MS_MAX : Nat) (w : World) (file : String) (pid : Int)
    (hpid : isInt32 pid) (hopen : w.open_ok 0 = true) :
    (∃ data, (write_pidfile w file pid).2.fs file = some data ∧ atoi_buf data = some pid) ∧
    ((write_pidfile w file pid).2.open_ok 0 = true →
      (write_pidfile w file pid).2.read_ok 0 = true →
      (show_status_of MS_MAX (write_pidfile w file pid).2 file).2.1 = Outcome.returned ∧
      ∃ fmt rest, (show_status_of MS_MAX (write_pidfile w file pid).2 file).1 =
        [Event.kill pid 0, Event.printf fmt (Arg.int pid :: rest)]) := by
  obtain ⟨pad, hbuf, _⟩ := pidfile_buf_eq pid hpid
  have hfs : (write_pidfile w file pid).2.fs file =
      some (lld pid ++ NUL :: (pad ++ ((w.fs file).getD []).drop 32)) := by
    simp [write_pidfile, hopen, hbuf]
  have hatoi := atoi_buf_lld pid hpid (pad ++ ((w.fs file).getD []).drop 32)
  refine ⟨⟨_, hfs, hatoi⟩, ?_⟩
  intro ho hr
  have hr2 : (write_pidfile w file pid).2.after_open.read_ok 0 = true := by
    simpa [World.after_open] using hr
  unfold show_status_of
  simp only [hfs, ho, hr2, hatoi]
  by_cases ha : alive (write_pidfile w file pid).2.after_open.after_read.after_gettimeofday pid
      = true
  · simp [ha]
  · simp [ha]

/-- Witness of C6: pid 1234 written over a file that already holds 40 bytes. -/
theorem pidfile_round_trip_witness :
    (∃ data, (write_pidfile example_world "mon.pid" 1234).2.fs "mon.pid" = some data ∧
      atoi_buf data = some 1234) ∧
    ((write_pidfile example_world "mon.pid" 1234).2.open_ok 0 = true →
      (write_pidfile example_world "mon.pid" 1234).2.read_ok 0 = true →
      (show_status_of 256 (write_pidfile example_world "mon.pid" 1234).2 "mon.pid").2.1 =
        Outcome.returned ∧
      ∃ fmt rest, (show_status_of 256 (write_pidfile example_world "mon.pid" 1234).2
        "mon.pid").1 = [Event.kill 1234 0, Event.printf fmt (Arg.int 1234 :: rest)]) :=
  pidfile_round_trip 256 example_world "mon.pid" 1234
    (by unfold isInt32 INT_MIN INT_MAX; decide) rfl

/-! ### Supervision loop -/

theorem tally_append (a b : List Event) : tally (a ++ b) = tally a + tally b := by
  simp [tally, List.countP_append]

theorem tally_nil : tally [] = (0, 0, 0, 0, 0) := rfl

theorem tally_cons_log (pfx : Option String) (fmt : String) (args : List Arg)
    (l : List Event) (h0 : fmt ≠ "last restart %s ago") (h1 : fmt ≠ "on restart `%s`")
    (h2 : fmt ≠ "on error `%s`") :
    tally (Event.log pfx fmt args :: l) = tally l := by
  simp [tally, is_fork, is_log, is_system, h0, h1, h2]

theorem exec_restart_command_spec (pfx : Option String) (m : monitor_t) (w : World) :
    tally (exec_restart_command pfx m w).1 = (0, 0, 1, 0, 1) ∧
    (exec_restart_command pfx m w).2 = w.after_system := by
  unfold exec_restart_command
  by_cases h : w.system 0 = 0
  · simp [h, tally, is_fork, is_log, is_system]
  · simp [h, tally, is_fork, is_log, is_system]

theorem exec_error_command_spec (pfx : Option String) (m : monitor_t) (w : World) :
    tally (exec_error_command pfx m w).1 = (0, 0, 0, 1, 1) ∧
    (exec_error_command pfx m w).2 = w.after_system := by
  unfold exec_error_command
  by_cases h : w.system 0 = 0
  · simp [h, tally, is_fork, is_log, is_system]
  · simp [h, tally, is_fork, is_log, is_system]

theorem start_abort_spec (MS_MAX : Nat) (pfx : Option String) (m : monitor_t) (w : World) :
    tally (start_abort MS_MAX pfx m w).1 = (0, 0, 0, 1, 1) := by
  unfold start_abort
  simp only [tally_append, exec_error_command_spec]
  simp [tally, is_fork, is_log, is_system]

theorem hook_calls_are_append (pfx : Option String) (fmt : String) (cmd : Option String)
    (a b : List Event) :
    hook_calls_are pfx fmt cmd (a ++ b) =
      (hook_calls_are pfx fmt cmd a && hook_calls_are pfx fmt cmd b) := by
  simp [hook_calls_are, List.all_append]

/-- A trace without a call of `system` and without a `log` line of the format holds no
hook call at all. -/
theorem hook_calls_are_of_none (pfx : Option String) (fmt : String) (cmd : Option String)
    (l : List Event) (h1 : l.countP is_system = 0) (h2 : l.countP (is_log fmt) = 0) :
    hook_calls_are pfx fmt cmd l = true := by
  rw [List.countP_eq_zero] at h1 h2
  unfold hook_calls_are
  rw [List.all_eq_true]
  intro e he
  have e1 := h1 e he
  have e2 := h2 e he
  simp [e1, e2]

theorem tally_zero_no_hook (l : List Event) (h : tally l = (0, 0, 0, 0, 0)) :
    l.countP is_system = 0 ∧ l.countP (is_log "on restart `%s`") = 0 ∧
      l.countP (is_log "on error `%s`") = 0 := by
  simp only [tally, Prod.mk.injEq] at h
  exact ⟨h.2.2.2.2, h.2.2.1, h.2.2.2.1⟩

theorem exec_restart_command_calls (pfx : Option String) (m : monitor_t) (w : World) :
    hook_calls_are pfx "on restart `%s`" m.on_restart (exec_restart_command pfx m w).1
      = true := by
  unfold exec_restart_command
  by_cases h : w.system 0 = 0
  · simp [h, hook_calls_are, is_log, is_system]
  · simp [h, hook_calls_are, is_log, is_system]

theorem exec_error_command_calls (pfx : Option String) (m : monitor_t) (w : World) :
    hook_calls_are pfx "on error `%s`" m.on_error (exec_error_command pfx m w).1
      = true := by
  unfold exec_error_command
  by_cases h : w.system 0 = 0
  · simp [h, hook_calls_are, is_log, is_system]
  · simp [h, hook_calls_are, is_log, is_system]

/-- In the abort branch the only hook call is that of the on-error command of the
monitor. -/
theorem start_abort_calls (MS_MAX : Nat) (pfx : Option String) (m : monitor_t) (w : World) :
    hook_calls_are pfx "on error `%s`" m.on_error (start_abort MS_MAX pfx m w).1 = true := by
  unfold start_abort
  simp only [hook_calls_are_append, exec_error_command_calls]
  simp [hook_calls_are, is_log, is_system]

/-- In the first half of the block `error:` the only hook call is that of the on-restart
command of the monitor. -/
theorem start_restart_calls (MS_MAX : Nat) (pfx : Option String) (m : monitor_t)
    (w : World) :
    hook_calls_are pfx "on restart `%s`" m.on_restart (start_restart MS_MAX pfx m w).1
      = true := by
  unfold start_restart
  simp only [hook_calls_are_append]
  by_cases hr : m.on_restart.isSome = true
  · simp only [hr, if_true, exec_restart_command_calls]
    simp [hook_calls_are, is_log, is_system]
  · simp only [hr]
    simp [hook_calls_are, is_log, is_system]

/-- The first half of the block `error:`: one restart decision is logged, the
on-restart hook runs when one is configured, and the elapsed time and the new
`last_restart_at` come from the next one or two clock readings. -/
theorem start_restart_spec (MS_MAX : Nat) (pfx : Option String) (m : monitor_t) (w : World) :
    tally (start_restart MS_MAX pfx m w).1 =
      (0, 1, (if m.on_restart.isSome then 1 else 0), 0,
        (if m.on_restart.isSome then 1 else 0)) ∧
    (start_restart MS_MAX pfx m w).2.2.2.children = w.children ∧
    (0 = m.last_restart_at →
      (start_restart MS_MAX pfx m w).2.2.1 = 0 ∧
      (start_restart MS_MAX pfx m w).2.1 = { m with last_restart_at := w.reading 0 } ∧
      (start_restart MS_MAX pfx m w).2.2.2.gettimeofday = (fun n => w.gettimeofday (n + 1))) ∧
    (0 ≠ m.last_restart_at →
      (start_restart MS_MAX pfx m w).2.2.1 = wrap64 (w.reading 0 - m.last_restart_at) ∧
      (start_restart MS_MAX pfx m w).2.1 = { m with last_restart_at := w.reading 1 } ∧
      (start_restart MS_MAX pfx m w).2.2.2.gettimeofday = (fun n => w.gettimeofday (n + 2))) := by
  have hlogs : ∀ (l : List Event) (a b : List Arg),
      tally (l ++ [Event.log pfx "last restart %s ago" a,
        Event.log pfx "%d attempts remaining" b]) = tally l + (0, 1, 0, 0, 0) := by
    intro l a b
    rw [tally_append]
    simp [tally, is_fork, is_log, is_system]
  refine ⟨?_, ?_, ?_, ?_⟩
  · unfold start_restart
    simp only [hlogs]
    by_cases hr : m.on_restart.isSome = true
    · simp only [hr, if_true, exec_restart_command_spec]
      rfl
    · simp only [hr, if_false, tally_nil]
      rfl
  · unfold start_restart
    by_cases hr : m.on_restart.isSome = true <;> by_cases hl : 0 = m.last_restart_at <;>
      simp [hr, hl, ms_since_last_restart, timestamp, exec_restart_command_spec,
        World.after_system, World.after_malloc, World.after_gettimeofday]
  · intro hl
    unfold start_restart
    by_cases hr : m.on_restart.isSome = true <;>
      simp [hr, ← hl, ms_since_last_restart, timestamp, exec_restart_command_spec,
        World.after_system, World.after_malloc, World.after_gettimeofday, World.reading]
  · intro hl
    unfold start_restart
    by_cases hr : m.on_restart.isSome = true <;>
      simp [hr, hl, ms_since_last_restart, timestamp, exec_restart_command_spec,
        World.after_system, World.after_malloc, World.after_gettimeofday, World.reading]

theorem write_pidfile_spec (w : World) (file : String) (pid : Int) :
    tally (write_pidfile w file pid).1 = (0, 0, 0, 0, 0) ∧
    (write_pidfile w file pid).2.gettimeofday = w.gettimeofday ∧
    (write_pidfile w file pid).2.children = w.children := by
  unfold write_pidfile
  by_cases h : w.open_ok 0 = true
  · simp [h, World.after_open, tally]
  · simp [h, World.after_open, tally, is_fork, is_log, is_system]

theorem start_wait_spec (pfx : Option String) (m : monitor_t) (w : World) (child : Child) :
    tally (start_wait pfx m w child).1 = (0, 0, 0, 0, 0) ∧
    (start_wait pfx m w child).2.gettimeofday = w.gettimeofday ∧
    (start_wait pfx m w child).2.children = w.children := by
  have hevs : ∀ evs : List Event, tally evs = (0, 0, 0, 0, 0) →
      ∀ pre : List Event, tally pre = (0, 0, 0, 0, 0) →
      tally (Event.log pfx "child %d" [Arg.int child.pid] :: pre ++
        Event.waitpid child.pid :: evs) = (0, 0, 0, 0, 0) := by
    intro evs he pre hpre
    rw [List.cons_append, tally_cons_log pfx "child %d" _ _ (by decide) (by decide)
      (by decide), tally_append, hpre]
    have : tally (Event.waitpid child.pid :: evs) = tally evs := by
      simp [tally, is_fork, is_log, is_system]
    rw [this, he]
    rfl
  have hstatus : tally (match child.status with
      | WaitStatus.signaled sig =>
        [Event.log pfx "signal(%s)" [Arg.str (w.strsignal sig)],
         Event.log pfx "sleep(%d)" [Arg.int m.sleepsec],
         Event.sleep m.sleepsec]
      | WaitStatus.exited code =>
        if code ≠ 0 then
          [Event.log pfx "exit(%d)" [Arg.int code],
           Event.log pfx "sleep(%d)" [Arg.int m.sleepsec],
           Event.sleep m.sleepsec]
        else []) = (0, 0, 0, 0, 0) := by
    cases child.status with
    | signaled sig => simp [tally, is_fork, is_log, is_system]
    | exited code =>
      by_cases hc : code = 0
      · simp [hc, tally]
      · simp [hc, tally, is_fork, is_log, is_system]
  unfold start_wait
  cases hp : m.pidfile with
  | none => exact ⟨hevs _ hstatus [] rfl, rfl, rfl⟩
  | some file =>
    obtain ⟨h1, h2, h3⟩ := write_pidfile_spec w file child.pid
    refine ⟨hevs _ hstatus _ ?_, h2, h3⟩
    rw [tally_cons_log pfx "write pid to %s" _ _ (by decide) (by decide) (by decide)]
    exact h1

theorem start_exec_parent (MS_MAX : Nat) (pfx : Option String) (cmd : String)
    (m : monitor_t) (w : World) (h1 : (w.children 0).pid ≠ -1) (h0 : (w.children 0).pid ≠ 0) :
    start_exec MS_MAX pfx cmd m w =
      { start_error MS_MAX pfx m (start_wait pfx m w.after_fork (w.children 0)).2 with
        events := Event.fork (w.children 0).pid ::
          (start_wait pfx m w.after_fork (w.children 0)).1 ++
          (start_error MS_MAX pfx m (start_wait pfx m w.after_fork (w.children 0)).2).events } := by
  simp [start_exec, h1, h0]

theorem tally_fork_wait (pfx : Option String) (m : monitor_t) (w : World) (child : Child)
    (l : List Event) :
    tally (Event.fork child.pid :: (start_wait pfx m w child).1 ++ l) =
      (1, 0, 0, 0, 0) + tally l := by
  have h : tally (Event.fork child.pid :: (start_wait pfx m w child).1) = (1, 0, 0, 0, 0) := by
    have hw := (start_wait_spec pfx m w child).1
    simp only [tally, Prod.mk.injEq] at hw ⊢
    simp [List.countP_cons, is_fork, is_log, is_system, hw]
  rw [tally_append, h]

/-- One pass of the supervision loop while the clock readings stay within 60 seconds of
the first one: the command is forked once, one restart decision is made, the window
stays open, and the pass aborts exactly when the counted attempt reaches the limit. -/
theorem start_exec_pass (MS_MAX : Nat) (pfx : Option String) (cmd : String) (t0 : Int)
    (m : monitor_t) (w : World) (c : Int)
    (ha0 : 0 ≤ m.attempts) (ha1 : m.attempts + 1 ≤ m.max_attempts)
    (hN : isInt32 m.max_attempts)
    (hc1 : m.clock ≤ 60000) (hc2 : 60000 - m.clock ≤ c - t0) (ht0 : t0 ≤ c)
    (hlast : m.last_restart_at = 0 ∨ m.last_restart_at = c)
    (hc : c ≤ w.reading 0) (hmono : ∀ i, w.reading i ≤ w.reading (i + 1))
    (hspan : ∀ i, w.reading i < t0 + 60000)
    (hfork : ∀ i, (w.children i).pid ≠ -1 ∧ (w.children i).pid ≠ 0) :
    ∃ (m' : monitor_t) (w' : World) (c' : Int) (pre : List Event),
      tally pre = (1, 1, (if m.on_restart.isSome then 1 else 0), 0,
        (if m.on_restart.isSome then 1 else 0)) ∧
      hook_calls_are pfx "on restart `%s`" m.on_restart pre = true ∧
      m'.on_error = m.on_error ∧
      m'.attempts = m.attempts + 1 ∧ m'.max_attempts = m.max_attempts ∧
      m'.on_restart = m.on_restart ∧
      m'.clock ≤ 60000 ∧ 60000 - m'.clock ≤ c' - t0 ∧ t0 ≤ c' ∧
      (m'.last_restart_at = 0 ∨ m'.last_restart_at = c') ∧
      c' ≤ w'.reading 0 ∧ (∀ i, w'.reading i ≤ w'.reading (i + 1)) ∧
      (∀ i, w'.reading i < t0 + 60000) ∧
      (∀ i, (w'.children i).pid ≠ -1 ∧ (w'.children i).pid ≠ 0) ∧
      (m.attempts + 1 < m.max_attempts →
        (start_exec MS_MAX pfx cmd m w).halt = none ∧
        (start_exec MS_MAX pfx cmd m w).events = pre ∧
        (start_exec MS_MAX pfx cmd m w).monitor = m' ∧
        (start_exec MS_MAX pfx cmd m w).world = w') ∧
      (m.attempts + 1 = m.max_attempts →
        (start_exec MS_MAX pfx cmd m w).halt = some (Outcome.exit 2) ∧
        ∃ wa, (start_exec MS_MAX pfx cmd m w).events =
          pre ++ (start_abort MS_MAX pfx m' wa).1) := by
  have hpar := start_exec_parent MS_MAX pfx cmd m w (hfork 0).1 (hfork 0).2
  obtain ⟨hwtal, hwt, hwc⟩ := start_wait_spec pfx m w.after_fork (w.children 0)
  have hread : ∀ i, (start_wait pfx m w.after_fork (w.children 0)).2.reading i = w.reading i := by
    intro i
    unfold World.reading
    rw [hwt]
    rfl
  obtain ⟨htal, hch, hA, hB⟩ :=
    start_restart_spec MS_MAX pfx m (start_wait pfx m w.after_fork (w.children 0)).2
  rw [hread 0] at hA hB
  rw [hread 1] at hB
  rw [hwt] at hA hB
  rw [hwc] at hch
  have hN1 := hN
  unfold isInt32 INT_MIN INT_MAX at hN1
  obtain ⟨ms, t, k, hms, hmon, hget, h0, h1, h2, h3⟩ : ∃ (ms t : Int) (k : Nat),
      (start_restart MS_MAX pfx m (start_wait pfx m w.after_fork (w.children 0)).2).2.2.1 = ms ∧
      (start_restart MS_MAX pfx m (start_wait pfx m w.after_fork (w.children 0)).2).2.1 =
        { m with last_restart_at := t } ∧
      (start_restart MS_MAX pfx m
        (start_wait pfx m w.after_fork (w.children 0)).2).2.2.2.gettimeofday =
        (fun n => w.after_fork.gettimeofday (n + k)) ∧
      0 ≤ ms ∧ 60000 - (m.clock - ms) ≤ t - t0 ∧ t0 ≤ t ∧ t ≤ w.reading k := by
    have hs0 := hspan 0
    have hm0 : w.reading 0 ≤ w.reading 1 := hmono 0
    by_cases hz : 0 = m.last_restart_at
    · obtain ⟨e1, e2, e3⟩ := hA hz
      exact ⟨0, w.reading 0, 1, e1, e2, e3, le_refl 0, by omega, by omega, hmono 0⟩
    · obtain ⟨e1, e2, e3⟩ := hB hz
      have hl : m.last_restart_at = c := by
        rcases hlast with hl | hl
        · exact absurd hl.symm hz
        · exact hl
      have hw : wrap64 (w.reading 0 - m.last_restart_at) = w.reading 0 - c := by
        rw [hl]
        unfold wrap64
        omega
      rw [hw] at e1
      exact ⟨w.reading 0 - c, w.reading 1, 2, e1, e2, e3, by omega, by omega, by omega,
        hmono 1⟩
  have hsp := hspan k
  have hpol := attempts_exceeded_eq { m with last_restart_at := t } ms
    (by unfold isInt32 INT_MIN INT_MAX; show _ ≤ m.attempts + 1 ∧ m.attempts + 1 ≤ _; omega)
    (by unfold isInt64 LLONG_MIN LLONG_MAX; show _ ≤ m.clock - ms ∧ m.clock - ms ≤ _; omega)
  have hopen : ¬ ((m.clock - ms) ≤ 0) := by omega
  simp only [hopen, if_false] at hpol
  have hrd : ∀ i, (start_restart MS_MAX pfx m
      (start_wait pfx m w.after_fork (w.children 0)).2).2.2.2.reading i = w.reading (i + k) := by
    intro i
    unfold World.reading
    rw [hget]
    rfl
  refine ⟨{ m with last_restart_at := t, attempts := m.attempts + 1, clock := m.clock - ms },
    (start_restart MS_MAX pfx m (start_wait pfx m w.after_fork (w.children 0)).2).2.2.2, t,
    Event.fork (w.children 0).pid :: (start_wait pfx m w.after_fork (w.children 0)).1 ++
      (start_restart MS_MAX pfx m (start_wait pfx m w.after_fork (w.children 0)).2).1,
    ?_, ?_, rfl, rfl, rfl, rfl, ?_, ?_, h2, Or.inr rfl, ?_, ?_, ?_, ?_, ?_, ?_⟩
  · rw [tally_fork_wait, htal]
    simp
  · obtain ⟨z1, z2, _⟩ := tally_zero_no_hook _ hwtal
    rw [hook_calls_are_append, start_restart_calls, Bool.and_true]
    apply hook_calls_are_of_none
    · simpa [List.countP_cons, is_system] using z1
    · simpa [List.countP_cons, is_log] using z2
  · show m.clock - ms ≤ 60000
    omega
  · show 60000 - (m.clock - ms) ≤ t - t0
    exact h1
  · rw [hrd 0]
    have := hmono k
    simpa using h3
  · intro i
    rw [hrd i, hrd (i + 1)]
    have := hmono (i + k)
    rw [show i + 1 + k = i + k + 1 by omega]
    exact this
  · intro i
    rw [hrd i]
    exact hspan _
  · intro i
    rw [hch]
    exact hfork (i + 1)
  · intro hlt
    have hx : ¬ (m.attempts + 1 ≥ m.max_attempts) := by omega
    simp only [hx, if_false] at hpol
    rw [hpar]
    simp only [start_error, hms, hmon, hpol]
    simp
  · intro heq
    have hx : m.attempts + 1 ≥ m.max_attempts := by omega
    simp only [hx, if_true] at hpol
    rw [hpar]
    simp only [start_error, hms, hmon, hpol]
    simp
    exact ⟨_, rfl⟩

/-- With `k + 1` attempts left below the limit and the clock readings within 60 seconds
of the first one, the supervision loop makes `k + 1` passes and leaves through the abort
branch. -/
theorem start_aborts (MS_MAX : Nat) (pfx : Option String) (cmd : String) (t0 : Int) :
    ∀ (k fuel : Nat) (m : monitor_t) (w : World) (c : Int),
      k + 1 ≤ fuel →
      0 ≤ m.attempts → m.attempts + ((k : Int) + 1) = m.max_attempts →
      isInt32 m.max_attempts →
      m.clock ≤ 60000 → 60000 - m.clock ≤ c - t0 → t0 ≤ c →
      (m.last_restart_at = 0 ∨ m.last_restart_at = c) →
      c ≤ w.reading 0 → (∀ i, w.reading i ≤ w.reading (i + 1)) →
      (∀ i, w.reading i < t0 + 60000) →
      (∀ i, (w.children i).pid ≠ -1 ∧ (w.children i).pid ≠ 0) →
      (start MS_MAX pfx cmd fuel m w).2 = some (Outcome.exit 2) ∧
      ∃ pre tail,
        (start MS_MAX pfx cmd fuel m w).1 = pre ++ tail ∧
        tally pre = (k + 1, k + 1, (if m.on_restart.isSome then k + 1 else 0), 0,
          (if m.on_restart.isSome then k + 1 else 0)) ∧
        hook_calls_are pfx "on restart `%s`" m.on_restart pre = true ∧
        tally tail = (0, 0, 0, 1, 1) ∧
        hook_calls_are pfx "on error `%s`" m.on_error tail = true := by
  intro k
  induction k with
  | zero =>
    intro fuel m w c hfuel ha0 haN hN hc1 hc2 ht0 hlast hc hmono hspan hfork
    obtain ⟨f, rfl⟩ : ∃ f, fuel = f + 1 := ⟨fuel - 1, by omega⟩
    obtain ⟨m', w', c', pre, htal, hcalls, he', _, _, _, _, _, _, _, _, _, _, _, _, habort⟩ :=
      start_exec_pass MS_MAX pfx cmd t0 m w c ha0 (by omega) hN hc1 hc2 ht0 hlast hc hmono
        hspan hfork
    obtain ⟨hhalt, wa, hev⟩ := habort (by simpa using haN)
    simp only [start, hhalt]
    refine ⟨trivial, pre, (start_abort MS_MAX pfx m' wa).1, hev, ?_, hcalls,
      start_abort_spec MS_MAX pfx m' wa, ?_⟩
    · rw [htal]
    · rw [← he']
      exact start_abort_calls MS_MAX pfx m' wa
  | succ k ih =>
    intro fuel m w c hfuel ha0 haN hN hc1 hc2 ht0 hlast hc hmono hspan hfork
    obtain ⟨f, rfl⟩ : ∃ f, fuel = f + 1 := ⟨fuel - 1, by omega⟩
    obtain ⟨m', w', c', pre, htal, hcalls, he', ha', hN', hr', hc1', hc2', ht0', hlast',
        hc', hmono', hspan', hfork', hgo, _⟩ :=
      start_exec_pass MS_MAX pfx cmd t0 m w c ha0 (by push_cast at haN; omega) hN hc1 hc2 ht0
        hlast hc hmono hspan hfork
    obtain ⟨hhalt, hev, hmon, hworld⟩ := hgo (by push_cast at haN; omega)
    obtain ⟨hout, pre2, tail, htrace, htal2, hcalls2, htail, hcalls3⟩ :=
      ih f m' w' c' (by omega) (by omega) (by push_cast at haN; rw [ha', hN']; omega)
        (by rw [hN']; exact hN) hc1' hc2' ht0' hlast' hc' hmono' hspan' hfork'
    simp only [start, hhalt, hev, hmon, hworld]
    rw [hr'] at hcalls2
    rw [he'] at hcalls3
    refine ⟨hout, pre ++ pre2, tail, ?_, ?_, ?_, htail, hcalls3⟩
    · rw [htrace, List.append_assoc]
    · rw [tally_append, htal, htal2, hr']
      by_cases hr : m.on_restart.isSome = true <;> simp [hr] <;> omega
    · rw [hook_calls_are_append, hcalls, hcalls2]
      rfl

/-- C2, amended in the number of restarts of the command. From the initial accounting
(attempts 0, clock 60000, `last_restart_at` 0) and a limit `N ≥ 1`, when every `fork`
succeeds and the clock readings never go back and stay within 60 seconds of the first
one (the command fails at once), the supervision loop ends with `exit(2)` after `N`
passes, whatever the exit statuses are.  Its trace is a part `pre` followed by the abort
part `tail`.  In `pre` the command is launched `N` times (the first launch and `N - 1`
restarts), `N` restart decisions are made, and the on-restart hook runs `N` times when
one is configured and not at all otherwise: these are the only calls of `system` in
`pre`, each of them `system(on_restart)` after the log line of that command.  In `tail`
the on-error hook runs once: the one call of `system` there is `system(on_error)`. -/
theorem always_failing_aborts_at_limit (MS_MAX : Nat) (pfx : Option String) (cmd : String)
    (m : monitor_t) (w : World) (N fuel : Nat)
    (hN : 1 ≤ N) (hmax : m.max_attempts = N) (hint : isInt32 m.max_attempts)
    (ha : m.attempts = 0) (hc : m.clock = 60000) (hl : m.last_restart_at = 0)
    (hfork : ∀ i, (w.children i).pid ≠ -1 ∧ (w.children i).pid ≠ 0)
    (hmono : ∀ i, w.reading i ≤ w.reading (i + 1))
    (hspan : ∀ i, w.reading i < w.reading 0 + 60000)
    (hfuel : N ≤ fuel) :
    (start MS_MAX pfx cmd fuel m w).2 = some (Outcome.exit 2) ∧
    ∃ pre tail,
      (start MS_MAX pfx cmd fuel m w).1 = pre ++ tail ∧
      tally pre = (N, N, (if m.on_restart.isSome then N else 0), 0,
        (if m.on_restart.isSome then N else 0)) ∧
      hook_calls_are pfx "on restart `%s`" m.on_restart pre = true ∧
      tally tail = (0, 0, 0, 1, 1) ∧
      hook_calls_are pfx "on error `%s`" m.on_error tail = true := by
  obtain ⟨k, rfl⟩ : ∃ k, N = k + 1 := ⟨N - 1, by omega⟩
  exact start_aborts MS_MAX pfx cmd (w.reading 0) k fuel m w (w.reading 0) hfuel (by omega)
    (by rw [ha, hmax]; push_cast; omega) hint (by omega) (by omega) (le_refl _) (Or.inl hl)
    (le_refl _) hmono hspan hfork

/-- Witness of C2 (amended): the command `exit 1` with limit 3, no sleep and both
hooks. -/
theorem always_failing_aborts_at_limit_witness :
    (start 256 none "exit 1" 3
      { monitor_init with max_attempts := 3, sleepsec := 0, on_restart := some "R",
                          on_error := some "E" } example_world).2 = some (Outcome.exit 2) ∧
    ∃ pre tail,
      (start 256 none "exit 1" 3
        { monitor_init with max_attempts := 3, sleepsec := 0, on_restart := some "R",
                            on_error := some "E" } example_world).1 = pre ++ tail ∧
      tally pre = (3, 3, 3, 0, 3) ∧
      hook_calls_are none "on restart `%s`" (some "R") pre = true ∧
      tally tail = (0, 0, 0, 1, 1) ∧
      hook_calls_are none "on error `%s`" (some "E") tail = true :=
  always_failing_aborts_at_limit 256 none "exit 1"
    { monitor_init with max_attempts := 3, sleepsec := 0, on_restart := some "R",
                        on_error := some "E" } example_world 3 3
    (by decide) rfl (by unfold isInt32 INT_MIN INT_MAX; decide) rfl rfl rfl
    (by intro i; simp only [example_world]; omega)
    (by intro i; simp [World.reading, example_world])
    (by intro i; simp [World.reading, example_world])
    (le_refl 3)

/-- Counterexample to C2 as stated (limit `N = 1`, both hooks configured, the command
`exit 1` failing at once): the command is launched once and never again, so it is
restarted 0 times and not once; the on-restart hook runs once, the on-error hook once,
and the process exits with status 2. -/
theorem limit_one_never_restarts_command :
    start 256 none "exit 1" 5
        { monitor_init with max_attempts := 1, sleepsec := 0, on_restart := some "R",
                            on_error := some "E" } example_world =
      ([Event.fork 4000,
        Event.log none "child %d" [Arg.int 4000],
        Event.waitpid 4000,
        Event.log none "exit(%d)" [Arg.int 1],
        Event.log none "sleep(%d)" [Arg.int 0],
        Event.sleep 0,
        Event.log none "on restart `%s`" [Arg.str (some "R")],
        Event.system (some "R"),
        Event.log none "last restart %s ago" [Arg.str (some "less than one second")],
        Event.log none "%d attempts remaining" [Arg.int 1],
        Event.log none "%d restarts within %s, bailing"
          [Arg.int 1, Arg.str (some "less than one second")],
        Event.log none "on error `%s`" [Arg.str (some "E")],
        Event.system (some "E"),
        Event.log none "bye :)" []],
       some (Outcome.exit 2)) ∧
    ¬ ((start 256 none "exit 1" 5
        { monitor_init with max_attempts := 1, sleepsec := 0, on_restart := some "R",
                            on_error := some "E" } example_world).1.countP is_fork = 1 + 1) := by
  decide

/-- C4 at a monitor without an on-error hook (limit 1, `system` answering 1): the abort
branch still runs `exec_error_command`, which logs "on error" with a `NULL` argument
and calls `system(NULL)`, before `exit(2)`. -/
theorem abort_runs_unconfigured_on_error_hook :
    start 256 none "exit 1" 1 { monitor_init with max_attempts := 1, sleepsec := 0 }
        { example_world with system := fun _ => 1 } =
      ([Event.fork 4000,
        Event.log none "child %d" [Arg.int 4000],
        Event.waitpid 4000,
        Event.log none "exit(%d)" [Arg.int 1],
        Event.log none "sleep(%d)" [Arg.int 0],
        Event.sleep 0,
        Event.log none "last restart %s ago" [Arg.str (some "less than one second")],
        Event.log none "%d attempts remaining" [Arg.int 1],
        Event.log none "%d restarts within %s, bailing"
          [Arg.int 1, Arg.str (some "less than one second")],
        Event.log none "on error `%s`" [Arg.str none],
        Event.system none,
        Event.log none "exit(%d)" [Arg.int 1],
        Event.log none "bye :)" []],
       some (Outcome.exit 2)) := by
  decide

end Mon
